import Mathlib

/-!
Verification of backuparr against its specification.

This file gives a shallow embedding of the core algorithms of the
backuparr backup orchestrator: the retention engine
(`selectBackupsToKeep`, `ClassifyRetentionBuckets`), the retry
transport (`RetryTransport.RoundTrip`, `isRetryableStatus`,
`isRetryableError`), the ZIP enhancement/extraction pair
(`CreateEnhancedBackup`, `ExtractPostgresDumpsFromZip`), the
forms-login routines of the Radarr and Prowlarr app clients, the
per-app orchestrator (`runBackup`), and the web-UI job runner
(`executeBackupJob` / `finishJob`).

Conventions of the embedding:
* Go byte slices become `List Nat`; Go strings become `String`.
* Go maps become association lists updated by `goInsert`
  (replace-on-existing-key, append otherwise), read by `goLookup`.
* Fallible Go functions returning `(T, error)` become `Except String T`.
* `time.Time` values become civil date-times in a single fixed
  location, compared lexicographically.
* HTTP exchanges are abstracted to their observable data: statuses,
  error messages, cookie names, content types.
-/

set_option autoImplicit false

deriving instance DecidableEq for Except

namespace Backuparr

/-! ## Go `strings` package helpers -/

/-- Go `strings.Contains s pat`: `pat` occurs as a substring of `s`. -/
def strContains (s pat : String) : Bool := decide (pat.data <:+: s.data)

/-- Go `strings.HasPrefix s pat`. -/
def strStartsWith (s pat : String) : Bool := decide (pat.data <+: s.data)

/-- Go `strings.HasSuffix s pat`. -/
def strEndsWith (s pat : String) : Bool := decide (pat.data <:+ s.data)

/-- Go `strings.ToLower` (ASCII; the retry patterns are all ASCII). -/
def strToLower (s : String) : String := ⟨s.data.map Char.toLower⟩

/-- Go `strings.TrimSuffix`. -/
def strTrimSuffix (s pat : String) : String :=
  if strEndsWith s pat then ⟨s.data.take (s.data.length - pat.data.length)⟩ else s

/-- Go `strings.TrimPrefix` (`strings.TrimPrefix(s, pat)`). -/
def strTrimPre (s pat : String) : String :=
  if strStartsWith s pat then ⟨s.data.drop pat.data.length⟩ else s

/-! ## Go map helpers: association lists with Go `m[k] = v` update -/

/-- Go map assignment `m[k] = v`: replace the value at an existing key,
otherwise add the binding at the end. -/
def goInsert {V : Type} : List (String × V) → String → V → List (String × V)
  | [], k, v => [(k, v)]
  | (k0, v0) :: rest, k, v =>
    if k0 = k then (k0, v) :: rest else (k0, v0) :: goInsert rest k v

/-- Go map read `m[k]` returning `none` for an absent key. -/
def goLookup {V : Type} : List (String × V) → String → Option V
  | [], _ => none
  | (k0, v0) :: rest, k => if k0 = k then some v0 else goLookup rest k

theorem goLookup_goInsert_same {V : Type} (m : List (String × V)) (k : String) (v : V) :
    goLookup (goInsert m k v) k = some v := by
  induction m with
  | nil => simp [goInsert, goLookup]
  | cons p rest ih =>
    obtain ⟨k0, v0⟩ := p
    by_cases h : k0 = k
    · simp [goInsert, goLookup, h]
    · simp [goInsert, goLookup, h, ih]

theorem goLookup_goInsert_other {V : Type} (m : List (String × V)) (k k' : String) (v : V)
    (hne : k ≠ k') : goLookup (goInsert m k v) k' = goLookup m k' := by
  induction m with
  | nil => simp [goInsert, goLookup, fun h => hne h]
  | cons p rest ih =>
    obtain ⟨k0, v0⟩ := p
    by_cases h : k0 = k
    · subst h
      simp [goInsert, goLookup, fun h => hne h]
    · simp [goInsert, goLookup, h, ih]

/-! ## Retry transport: classification (src/internal/backup/retry.go) -/

/-- `isRetryableStatus` from retry.go: 502, 503, 504, 429 are transient. -/
def isRetryableStatus (status : Nat) : Bool :=
  status == 502 || status == 503 || status == 504 || status == 429

/-- The contractual substring list of `isRetryableError`. -/
def retryablePatterns : List String :=
  ["eof", "connection reset", "connection refused", "broken pipe", "timeout",
   "deadline exceeded", "tls handshake", "temporary failure", "server closed",
   "transport connection broken"]

/-- `isRetryableError` from retry.go: lowercase the message and
substring-match against `retryablePatterns`.  The Go receiver is a
non-nil `error`; the embedding takes its message. -/
def isRetryableError (msg : String) : Bool :=
  let s := strToLower msg
  retryablePatterns.any (fun pattern => strContains s pattern)

/-! ## Retry transport: RoundTrip (src/internal/backup/retry.go)

The round trip is modelled as a pure function over
* the outcomes the base round-tripper would produce on each attempt
  (`attempts i` is either a transport-error message or a status code), and
* the request context, modelled by the number of context consultations
  that see "not yet cancelled" (`cancelAfter = some c` means consultation
  indices `≥ c` observe a done context; `none` means never cancelled).
Context consultations happen, in order, at the top of each loop
iteration, after each attempt, and inside the sleep `select`, plus once
in the final return — exactly as in the source. -/

/-- Outcome of one attempt of the base round-tripper: transport error
message or response status. -/
abbrev AttemptOutcome := Except String Nat

/-- What `RoundTrip` returns: a response or an error. -/
inductive RTErr where
  | transport (msg : String)
  | canceled
  | noError
  deriving Repr, DecidableEq

inductive RTReturn where
  | resp (status : Nat)
  | fail (e : RTErr)
  deriving Repr, DecidableEq

/-- The observable trace of one `RoundTrip` call: its result, how many
attempts reached the base round-tripper, and the sleeps performed. -/
structure RTTrace where
  result : RTReturn
  attemptsMade : Nat
  sleeps : List Int
  deriving Repr, DecidableEq

/-- The context check: consultation number `i` sees a done context. -/
def ctxDoneAt (cancelAfter : Option Nat) (i : Nat) : Bool :=
  match cancelAfter with
  | none => false
  | some c => c ≤ i

/-- The final return block of `RoundTrip` (`lastErr` / `lastResp` /
`ctx.Err()` in that order). -/
def rtFinal (cancelAfter : Option Nat) (checkIdx : Nat)
    (lastErr : Option String) (lastResp : Option Nat) : RTReturn :=
  match lastErr with
  | some e => .fail (.transport e)
  | none =>
    match lastResp with
    | some s => .resp s
    | none => if ctxDoneAt cancelAfter checkIdx then .fail .canceled else .fail .noError

/-- Cancellation during the sleep `select`: return `lastErr` when set,
otherwise the context's error. -/
def sleepCancelReturn (lastErr : Option String) : RTReturn :=
  match lastErr with
  | some e => .fail (.transport e)
  | none => .fail .canceled

/-- The retry loop of `RoundTrip`.  `fuel` counts the remaining loop
iterations (`maxRetries + 1 - attemptIdx`); `checkIdx` numbers the
context consultations performed so far. -/
def rtLoop (attempts : Nat → AttemptOutcome) (cancelAfter : Option Nat)
    (maxRetries : Nat) (baseDelay : Int) :
    Nat → Nat → Nat → Option String → Option Nat → Nat → List Int → RTTrace
  | 0, _, checkIdx, lastErr, lastResp, made, sleeps =>
    ⟨rtFinal cancelAfter checkIdx lastErr lastResp, made, sleeps⟩
  | fuel + 1, i, c, lastErr, lastResp, made, sleeps =>
    if ctxDoneAt cancelAfter c then
      ⟨rtFinal cancelAfter (c + 1) lastErr lastResp, made, sleeps⟩
    else
      match attempts i with
      | .ok s =>
        if isRetryableStatus s = false then ⟨.resp s, made + 1, sleeps⟩
        else if ctxDoneAt cancelAfter (c + 1) then ⟨.resp s, made + 1, sleeps⟩
        else if i < maxRetries then
          if ctxDoneAt cancelAfter (c + 2) then
            ⟨sleepCancelReturn lastErr, made + 1, sleeps⟩
          else
            rtLoop attempts cancelAfter maxRetries baseDelay fuel (i + 1) (c + 3)
              lastErr (some s) (made + 1) (sleeps ++ [baseDelay * 2 ^ i])
        else
          rtLoop attempts cancelAfter maxRetries baseDelay fuel (i + 1) (c + 2)
            lastErr (some s) (made + 1) sleeps
      | .error e =>
        if ctxDoneAt cancelAfter (c + 1) then ⟨.fail (.transport e), made + 1, sleeps⟩
        else if isRetryableError e = false then ⟨.fail (.transport e), made + 1, sleeps⟩
        else if i < maxRetries then
          if ctxDoneAt cancelAfter (c + 2) then
            ⟨.fail (.transport e), made + 1, sleeps⟩
          else
            rtLoop attempts cancelAfter maxRetries baseDelay fuel (i + 1) (c + 3)
              (some e) lastResp (made + 1) (sleeps ++ [baseDelay * 2 ^ i])
        else
          rtLoop attempts cancelAfter maxRetries baseDelay fuel (i + 1) (c + 2)
            (some e) lastResp (made + 1) sleeps

/-- The `RetryTransport` configuration (`Base` is abstracted into the
`attempts` oracle). -/
structure RetryTransport where
  MaxRetries : Int
  BaseDelay : Int
  deriving Repr, DecidableEq

/-- The default base delay, 2 s in nanoseconds (`time.Duration` units). -/
def defaultBaseDelay : Int := 2000000000

/-- `RetryTransport.RoundTrip`: normalize `MaxRetries ≤ 0` to 3 and
`BaseDelay ≤ 0` to 2 s, then run the retry loop. -/
def roundTrip (t : RetryTransport) (attempts : Nat → AttemptOutcome)
    (cancelAfter : Option Nat) : RTTrace :=
  let maxRetries : Int := if t.MaxRetries ≤ 0 then 3 else t.MaxRetries
  let baseDelay : Int := if t.BaseDelay ≤ 0 then defaultBaseDelay else t.BaseDelay
  rtLoop attempts cancelAfter maxRetries.toNat baseDelay
    (maxRetries.toNat + 1) 0 0 none none 0 []

/-! ## Civil time (the fragment of `time.Time` used by retention)

Retention compares and truncates timestamps.  A timestamp is modelled
as a civil date-time in a single fixed location; `time.After` is the
lexicographic order on its fields. -/

structure RTime where
  year : Int
  month : Int
  day : Int
  hour : Int
  minute : Int
  second : Int
  deriving Repr, DecidableEq

/-- Strict lexicographic order on integer lists. -/
def lexLt : List Int → List Int → Bool
  | [], [] => false
  | [], _ :: _ => true
  | _ :: _, [] => false
  | a :: as, b :: bs => if a < b then true else if b < a then false else lexLt as bs

def RTime.fields (t : RTime) : List Int :=
  [t.year, t.month, t.day, t.hour, t.minute, t.second]

/-- `a.After(b)`: `a` is strictly later than `b`. -/
def RTime.after (a b : RTime) : Bool := lexLt b.fields a.fields

/-- Days since 1970-01-01 of a civil date (days-from-civil algorithm;
`Int.ediv` is floor division for positive divisors). -/
def daysFromCivil (y m d : Int) : Int :=
  let y := y - (if m ≤ 2 then 1 else 0)
  let era := y.ediv 400
  let yoe := y - era * 400
  let mp := (m + 9).emod 12
  let doy := (153 * mp + 2).ediv 5 + d - 1
  let doe := yoe * 365 + yoe.ediv 4 - yoe.ediv 100 + doy
  era * 146097 + doe - 719468

/-- Civil date of a number of days since 1970-01-01 (civil-from-days
algorithm). -/
def civilFromDays (z0 : Int) : Int × Int × Int :=
  let z := z0 + 719468
  let era := z.ediv 146097
  let doe := z - era * 146097
  let yoe := (doe - doe.ediv 1460 + doe.ediv 36524 - doe.ediv 146096).ediv 365
  let y := yoe + era * 400
  let doy := doe - (365 * yoe + yoe.ediv 4 - yoe.ediv 100)
  let mp := (5 * doy + 2).ediv 153
  let d := doy - (153 * mp + 2).ediv 5 + 1
  let m := mp + (if mp < 10 then 3 else -9)
  (y + (if m ≤ 2 then 1 else 0), m, d)

/-- ISO weekday (Monday = 1 … Sunday = 7) of a day number.  Day 0
(1970-01-01) is a Thursday. -/
def isoWeekdayOfDays (z : Int) : Int := (z + 3).emod 7 + 1

/-- Go `Weekday` (Sunday = 0 … Saturday = 6) of a day number. -/
def goWeekdayOfDays (z : Int) : Int := (z + 4).emod 7

/-- Go `Time.ISOWeek`: the ISO 8601 year and week of the Thursday of
the week (weeks start on Monday). -/
def isoWeek (t : RTime) : Int × Int :=
  let d := daysFromCivil t.year t.month t.day
  let wd := isoWeekdayOfDays d
  let thursday := d + (4 - wd)
  let y := (civilFromDays thursday).1
  let yday := thursday - daysFromCivil y 1 1
  (y, yday.ediv 7 + 1)

/-! ## Retention engine (storage/retention.go) -/

structure RetentionPolicy where
  KeepLast : Int
  KeepHourly : Int
  KeepDaily : Int
  KeepWeekly : Int
  KeepMonthly : Int
  KeepYearly : Int
  deriving Repr, DecidableEq

structure BackupMetadata where
  Key : String
  AppName : String
  FileName : String
  Size : Int
  CreatedAt : RTime
  deriving Repr, DecidableEq

def truncateHour (t : RTime) : RTime := ⟨t.year, t.month, t.day, t.hour, 0, 0⟩

def truncateDay (t : RTime) : RTime := ⟨t.year, t.month, t.day, 0, 0, 0⟩

/-- `truncateWeek`: Monday 00:00 of the ISO week of `t`, computed as in
the source via `ISOWeek`, January 4, and a day offset. -/
def truncateWeek (t : RTime) : RTime :=
  let yw := isoWeek t
  let jan4 := daysFromCivil yw.1 1 4
  let weekday0 := goWeekdayOfDays jan4
  let weekday := if weekday0 = 0 then 7 else weekday0
  let monday := jan4 + (-(weekday - 1) + (yw.2 - 1) * 7)
  let ymd := civilFromDays monday
  ⟨ymd.1, ymd.2.1, ymd.2.2, 0, 0, 0⟩

def truncateMonth (t : RTime) : RTime := ⟨t.year, t.month, 1, 0, 0, 0⟩

def truncateYear (t : RTime) : RTime := ⟨t.year, 1, 1, 0, 0, 0⟩

/-- Descending insertion, realizing `sort.Slice` with the comparator
`sorted[i].CreatedAt.After(sorted[j].CreatedAt)`. -/
def insertDesc (b : BackupMetadata) : List BackupMetadata → List BackupMetadata
  | [] => [b]
  | x :: xs => if b.CreatedAt.after x.CreatedAt then b :: x :: xs else x :: insertDesc b xs

/-- Sort newest-first by `CreatedAt`. -/
def sortNewestFirst : List BackupMetadata → List BackupMetadata
  | [] => []
  | b :: rest => insertDesc b (sortNewestFirst rest)

/-- The keys of a list of backups, as a set (the Go `map[string]struct{}`). -/
def keysFinset (l : List BackupMetadata) : Finset String := (l.map (·.Key)).toFinset

/-- `markByBucket`: walk newest-first, keep the first backup seen in each
distinct bucket, stop once `count` distinct buckets are marked.  `seen`
is the set of bucket keys already marked (the Go `map[time.Time]bool`). -/
def markByBucket (count : Int) (truncate : RTime → RTime) :
    List BackupMetadata → List RTime → Finset String → Finset String
  | [], _, keep => keep
  | b :: rest, seen, keep =>
    if truncate b.CreatedAt ∈ seen then markByBucket count truncate rest seen keep
    else if count ≤ ((truncate b.CreatedAt :: seen).length : Int) then
      insert b.Key keep
    else
      markByBucket count truncate rest (truncate b.CreatedAt :: seen) (insert b.Key keep)

/-- The `KeepLast` loop: insert the keys of the first
`min(keepLast, len)` sorted entries. -/
def insertKeys : List BackupMetadata → Finset String → Finset String
  | [], keep => keep
  | b :: rest, keep => insertKeys rest (insert b.Key keep)

/-- `selectBackupsToKeep` from storage/retention.go. -/
def selectBackupsToKeep (backups : List BackupMetadata) (policy : RetentionPolicy) :
    Finset String :=
  let sorted := sortNewestFirst backups
  let keep0 := insertKeys (sorted.take policy.KeepLast.toNat) ∅
  let k1 := if 0 < policy.KeepHourly then
      markByBucket policy.KeepHourly truncateHour sorted [] keep0 else keep0
  let k2 := if 0 < policy.KeepDaily then
      markByBucket policy.KeepDaily truncateDay sorted [] k1 else k1
  let k3 := if 0 < policy.KeepWeekly then
      markByBucket policy.KeepWeekly truncateWeek sorted [] k2 else k2
  let k4 := if 0 < policy.KeepMonthly then
      markByBucket policy.KeepMonthly truncateMonth sorted [] k3 else k3
  if 0 < policy.KeepYearly then
      markByBucket policy.KeepYearly truncateYear sorted [] k4 else k4

/-! ### Spec-side description of the keep set

`keepSpec` renders the specification sentence: keep the
`min(keepLast, length)` newest entries, and for each dimension with a
positive count the newest entry of each of the first `count` distinct
truncation buckets encountered walking the sorted list newest-first. -/

/-- The entries that are the first of their bucket in walk order — i.e.
the newest entry of each distinct bucket, in order of first encounter. -/
def firstPerBucket (truncate : RTime → RTime) :
    List BackupMetadata → List RTime → List BackupMetadata
  | [], _ => []
  | b :: rest, seen =>
    if truncate b.CreatedAt ∈ seen then firstPerBucket truncate rest seen
    else b :: firstPerBucket truncate rest (truncate b.CreatedAt :: seen)

/-- Keys of the newest entries of the first `count` distinct buckets. -/
def bucketKeepSpec (count : Int) (truncate : RTime → RTime)
    (sorted : List BackupMetadata) : Finset String :=
  keysFinset ((firstPerBucket truncate sorted []).take count.toNat)

/-- The keep set as the specification words it. -/
def keepSpec (backups : List BackupMetadata) (policy : RetentionPolicy) : Finset String :=
  let sorted := sortNewestFirst backups
  ((((keysFinset (sorted.take policy.KeepLast.toNat)
    ∪ (if 0 < policy.KeepHourly then
        bucketKeepSpec policy.KeepHourly truncateHour sorted else ∅))
    ∪ (if 0 < policy.KeepDaily then
        bucketKeepSpec policy.KeepDaily truncateDay sorted else ∅))
    ∪ (if 0 < policy.KeepWeekly then
        bucketKeepSpec policy.KeepWeekly truncateWeek sorted else ∅))
    ∪ (if 0 < policy.KeepMonthly then
        bucketKeepSpec policy.KeepMonthly truncateMonth sorted else ∅))
    ∪ (if 0 < policy.KeepYearly then
        bucketKeepSpec policy.KeepYearly truncateYear sorted else ∅)

theorem keysFinset_nil : keysFinset [] = ∅ := rfl

theorem keysFinset_cons (b : BackupMetadata) (l : List BackupMetadata) :
    keysFinset (b :: l) = insert b.Key (keysFinset l) := by
  simp [keysFinset]

theorem insertKeys_eq (l : List BackupMetadata) (keep : Finset String) :
    insertKeys l keep = keep ∪ keysFinset l := by
  induction l generalizing keep with
  | nil => simp [insertKeys, keysFinset_nil]
  | cons b rest ih =>
    rw [insertKeys, ih, keysFinset_cons, Finset.union_insert, Finset.insert_union]

theorem markByBucket_eq (count : Int) (truncate : RTime → RTime)
    (l : List BackupMetadata) (seen : List RTime) (keep : Finset String)
    (h : (seen.length : Int) < count) :
    markByBucket count truncate l seen keep
      = keep ∪ keysFinset ((firstPerBucket truncate l seen).take
          (count - seen.length).toNat) := by
  induction l generalizing seen keep with
  | nil => simp [markByBucket, firstPerBucket, keysFinset_nil]
  | cons b rest ih =>
    by_cases hmem : truncate b.CreatedAt ∈ seen
    · rw [markByBucket, if_pos hmem, firstPerBucket, if_pos hmem]
      exact ih seen keep h
    · rw [markByBucket, if_neg hmem, firstPerBucket, if_neg hmem]
      by_cases hstop : count ≤ ((truncate b.CreatedAt :: seen).length : Int)
      · have hone : (count - seen.length).toNat = 1 := by
          simp only [List.length_cons] at hstop
          push_cast at hstop
          omega
        rw [if_pos hstop, hone, List.take_succ_cons, List.take_zero,
          keysFinset_cons, keysFinset_nil]
        rw [insert_emptyc_eq, Finset.insert_eq, Finset.union_comm]
      · have hlt : ((truncate b.CreatedAt :: seen).length : Int) < count :=
          lt_of_not_ge hstop
        rw [if_neg hstop, ih _ _ hlt]
        have htake : (count - seen.length).toNat
            = (count - ((truncate b.CreatedAt :: seen).length : Int)).toNat + 1 := by
          simp only [List.length_cons] at hlt ⊢
          push_cast at hlt ⊢
          omega
        rw [htake, List.take_succ_cons, keysFinset_cons,
          Finset.union_insert, Finset.insert_union]

/-- One retention dimension: the guarded `markByBucket` call equals the
spec-side union with the guarded bucket set. -/
theorem markStep_eq (c : Int) (truncate : RTime → RTime)
    (sorted : List BackupMetadata) (prev : Finset String) :
    (if 0 < c then markByBucket c truncate sorted [] prev else prev)
      = prev ∪ (if 0 < c then bucketKeepSpec c truncate sorted else ∅) := by
  by_cases hc : 0 < c
  · have h0 : ((([] : List RTime)).length : Int) < c := by simpa using hc
    rw [if_pos hc, if_pos hc, markByBucket_eq c truncate sorted [] prev h0]
    simp [bucketKeepSpec]
  · simp [hc]

theorem selectBackupsToKeep_eq_spec (backups : List BackupMetadata)
    (policy : RetentionPolicy) :
    selectBackupsToKeep backups policy = keepSpec backups policy := by
  simp only [selectBackupsToKeep, keepSpec, markStep_eq, insertKeys_eq,
    Finset.empty_union]

theorem mem_insertDesc (a b : BackupMetadata) (l : List BackupMetadata) :
    a ∈ insertDesc b l ↔ a = b ∨ a ∈ l := by
  induction l with
  | nil => simp [insertDesc]
  | cons x xs ih =>
    by_cases h : b.CreatedAt.after x.CreatedAt
    · simp [insertDesc, h]
    · simp only [insertDesc, if_neg h, List.mem_cons, ih]
      tauto

theorem mem_sortNewestFirst (a : BackupMetadata) (l : List BackupMetadata) :
    a ∈ sortNewestFirst l ↔ a ∈ l := by
  induction l with
  | nil => simp [sortNewestFirst]
  | cons b rest ih => simp [sortNewestFirst, mem_insertDesc, ih]

theorem length_insertDesc (b : BackupMetadata) (l : List BackupMetadata) :
    (insertDesc b l).length = l.length + 1 := by
  induction l with
  | nil => simp [insertDesc]
  | cons x xs ih =>
    by_cases h : b.CreatedAt.after x.CreatedAt
    · simp [insertDesc, h]
    · simp [insertDesc, h, ih]

theorem length_sortNewestFirst (l : List BackupMetadata) :
    (sortNewestFirst l).length = l.length := by
  induction l with
  | nil => rfl
  | cons b rest ih => simp [sortNewestFirst, length_insertDesc, ih]

/-! ### ClassifyRetentionBuckets (storage/retention.go)

The Go label map `map[string][]string` is modelled as a total function
`String → List String`; an absent key reads as `nil` in Go and as `[]`
here, which also renders the initialization loop that sets every
present key to `nil`. -/

/-- Go map assignment `labels[k] = v` on the function model. -/
def updateLabels (f : String → List String) (k : String) (v : List String) :
    String → List String :=
  fun q => if q = k then v else f q

/-- The `KeepLast` loop of `ClassifyRetentionBuckets`: append `"latest"`
for each of the first `min(keepLast, len)` sorted entries. -/
def addLatest : List BackupMetadata → (String → List String) → (String → List String)
  | [], f => f
  | b :: rest, f => addLatest rest (updateLabels f b.Key (f b.Key ++ ["latest"]))

/-- The per-dimension loop of `ClassifyRetentionBuckets`: the same walk
as `markByBucket`, appending `label` instead of inserting the key. -/
def classifyByBucket (count : Int) (truncate : RTime → RTime) (label : String) :
    List BackupMetadata → List RTime → (String → List String) → (String → List String)
  | [], _, f => f
  | b :: rest, seen, f =>
    if truncate b.CreatedAt ∈ seen then classifyByBucket count truncate label rest seen f
    else if count ≤ ((truncate b.CreatedAt :: seen).length : Int) then
      updateLabels f b.Key (f b.Key ++ [label])
    else
      classifyByBucket count truncate label rest (truncate b.CreatedAt :: seen)
        (updateLabels f b.Key (f b.Key ++ [label]))

/-- `ClassifyRetentionBuckets` from storage/retention.go: the bucket
labels justifying each key; keys mapped to `[]` are prunable. -/
def ClassifyRetentionBuckets (backups : List BackupMetadata)
    (policy : RetentionPolicy) : String → List String :=
  let sorted := sortNewestFirst backups
  let f1 := addLatest (sorted.take policy.KeepLast.toNat) (fun _ => [])
  let f2 := if policy.KeepHourly ≤ 0 then f1 else
    classifyByBucket policy.KeepHourly truncateHour "hourly" sorted [] f1
  let f3 := if policy.KeepDaily ≤ 0 then f2 else
    classifyByBucket policy.KeepDaily truncateDay "daily" sorted [] f2
  let f4 := if policy.KeepWeekly ≤ 0 then f3 else
    classifyByBucket policy.KeepWeekly truncateWeek "weekly" sorted [] f3
  let f5 := if policy.KeepMonthly ≤ 0 then f4 else
    classifyByBucket policy.KeepMonthly truncateMonth "monthly" sorted [] f4
  if policy.KeepYearly ≤ 0 then f5 else
    classifyByBucket policy.KeepYearly truncateYear "yearly" sorted [] f5

theorem updateLabels_append_ne_nil (f : String → List String) (b : String)
    (label : String) (k : String) :
    updateLabels f b (f b ++ [label]) k ≠ [] ↔ (f k ≠ [] ∨ k = b) := by
  unfold updateLabels
  by_cases hk : k = b
  · subst hk
    simp
  · simp [hk]

theorem addLatest_ne_nil (l : List BackupMetadata) (f : String → List String)
    (k : String) :
    addLatest l f k ≠ [] ↔ (f k ≠ [] ∨ k ∈ keysFinset l) := by
  induction l generalizing f with
  | nil => simp [addLatest, keysFinset_nil]
  | cons b rest ih =>
    rw [addLatest, ih, updateLabels_append_ne_nil, keysFinset_cons]
    simp only [Finset.mem_insert]
    tauto

theorem classifyByBucket_ne_nil (count : Int) (truncate : RTime → RTime)
    (label : String) (l : List BackupMetadata) (seen : List RTime)
    (f : String → List String) (k : String)
    (h : (seen.length : Int) < count) :
    classifyByBucket count truncate label l seen f k ≠ []
      ↔ (f k ≠ [] ∨ k ∈ keysFinset ((firstPerBucket truncate l seen).take
          (count - seen.length).toNat)) := by
  induction l generalizing seen f with
  | nil => simp [classifyByBucket, firstPerBucket, keysFinset_nil]
  | cons b rest ih =>
    by_cases hmem : truncate b.CreatedAt ∈ seen
    · rw [classifyByBucket, if_pos hmem, firstPerBucket, if_pos hmem]
      exact ih seen f h
    · rw [classifyByBucket, if_neg hmem, firstPerBucket, if_neg hmem]
      by_cases hstop : count ≤ ((truncate b.CreatedAt :: seen).length : Int)
      · have hone : (count - seen.length).toNat = 1 := by
          simp only [List.length_cons] at hstop
          push_cast at hstop
          omega
        rw [if_pos hstop, hone, List.take_succ_cons, List.take_zero,
          keysFinset_cons, keysFinset_nil, updateLabels_append_ne_nil]
        simp
      · have hlt : ((truncate b.CreatedAt :: seen).length : Int) < count :=
          lt_of_not_ge hstop
        rw [if_neg hstop, ih _ _ hlt]
        have htake : (count - seen.length).toNat
            = (count - ((truncate b.CreatedAt :: seen).length : Int)).toNat + 1 := by
          simp only [List.length_cons] at hlt ⊢
          push_cast at hlt ⊢
          omega
        rw [htake, List.take_succ_cons, keysFinset_cons, updateLabels_append_ne_nil]
        simp only [Finset.mem_insert]
        tauto

/-- One retention dimension of the classifier agrees with the spec-side
bucket set (and hence with the corresponding `selectBackupsToKeep`
stage). -/
theorem classifyStep_ne_nil (c : Int) (truncate : RTime → RTime) (label : String)
    (sorted : List BackupMetadata) (f : String → List String)
    (prev : Finset String) (hf : ∀ k, f k ≠ [] ↔ k ∈ prev) (k : String) :
    (if c ≤ 0 then f else classifyByBucket c truncate label sorted [] f) k ≠ []
      ↔ k ∈ prev ∪ (if 0 < c then bucketKeepSpec c truncate sorted else ∅) := by
  by_cases hc : 0 < c
  · have hc' : ¬ c ≤ 0 := not_le.mpr hc
    have h0 : ((([] : List RTime)).length : Int) < c := by simpa using hc
    rw [if_neg hc', if_pos hc,
      classifyByBucket_ne_nil c truncate label sorted [] f k h0, hf]
    simp [bucketKeepSpec, Finset.mem_union]
  · have hc' : c ≤ 0 := not_lt.mp hc
    rw [if_pos hc', if_neg hc, hf]
    simp

/-! ### Claim C1 and Claim C8 -/

/-- **C1**: for every list of backups and every policy, the keep set of
`selectBackupsToKeep` equals the union of (a) the `min(keepLast, length)`
newest entries and (b), per dimension with positive count, the newest
entry of each of the first `count` distinct truncation buckets in
newest-first walk order (`keepSpec`); the all-zero policy keeps nothing,
and a `keepLast` larger than the list keeps every entry. -/
theorem C1_retention_keep_set (backups : List BackupMetadata)
    (policy : RetentionPolicy) :
    selectBackupsToKeep backups policy = keepSpec backups policy
    ∧ selectBackupsToKeep backups ⟨0, 0, 0, 0, 0, 0⟩ = ∅
    ∧ ((backups.length : Int) < policy.KeepLast →
        ∀ b ∈ backups, b.Key ∈ selectBackupsToKeep backups policy) := by
  refine ⟨selectBackupsToKeep_eq_spec backups policy, ?_, ?_⟩
  · rw [selectBackupsToKeep_eq_spec]
    simp [keepSpec, keysFinset_nil]
  · intro hlen b hb
    rw [selectBackupsToKeep_eq_spec]
    unfold keepSpec
    refine Finset.mem_union_left _ (Finset.mem_union_left _
      (Finset.mem_union_left _ (Finset.mem_union_left _
        (Finset.mem_union_left _ ?_))))
    have hall : (sortNewestFirst backups).take policy.KeepLast.toNat
        = sortNewestFirst backups := by
      apply List.take_of_length_le
      rw [length_sortNewestFirst]
      omega
    rw [hall]
    have hmem : b ∈ sortNewestFirst backups := (mem_sortNewestFirst b backups).mpr hb
    simp only [keysFinset, List.mem_toFinset]
    exact List.mem_map_of_mem _ hmem

/-- Witness for C1 at a concrete input: one backup, `keepLast = 2`. -/
theorem C1_retention_keep_set_witness :
    (⟨"a", "app", "f", 0, ⟨2026, 1, 1, 0, 0, 0⟩⟩ : BackupMetadata).Key
      ∈ selectBackupsToKeep [⟨"a", "app", "f", 0, ⟨2026, 1, 1, 0, 0, 0⟩⟩]
          ⟨2, 0, 0, 0, 0, 0⟩ :=
  (C1_retention_keep_set [⟨"a", "app", "f", 0, ⟨2026, 1, 1, 0, 0, 0⟩⟩]
      ⟨2, 0, 0, 0, 0, 0⟩).2.2 (by decide) _ (by simp)

/-- **C8**: a key receives at least one label from
`ClassifyRetentionBuckets` exactly when `selectBackupsToKeep` keeps it;
label-free keys are exactly the prunable ones. -/
theorem C8_classify_labels_iff_keep (backups : List BackupMetadata)
    (policy : RetentionPolicy) (k : String) :
    ClassifyRetentionBuckets backups policy k ≠ []
      ↔ k ∈ selectBackupsToKeep backups policy := by
  rw [selectBackupsToKeep_eq_spec]
  unfold ClassifyRetentionBuckets keepSpec
  have h1 : ∀ q, addLatest ((sortNewestFirst backups).take policy.KeepLast.toNat)
      (fun _ => []) q ≠ []
      ↔ q ∈ keysFinset ((sortNewestFirst backups).take policy.KeepLast.toNat) := by
    intro q
    rw [addLatest_ne_nil]
    simp
  have h2 := fun q => classifyStep_ne_nil policy.KeepHourly truncateHour "hourly"
    (sortNewestFirst backups) _ _ h1 q
  have h3 := fun q => classifyStep_ne_nil policy.KeepDaily truncateDay "daily"
    (sortNewestFirst backups) _ _ h2 q
  have h4 := fun q => classifyStep_ne_nil policy.KeepWeekly truncateWeek "weekly"
    (sortNewestFirst backups) _ _ h3 q
  have h5 := fun q => classifyStep_ne_nil policy.KeepMonthly truncateMonth "monthly"
    (sortNewestFirst backups) _ _ h4 q
  exact classifyStep_ne_nil policy.KeepYearly truncateYear "yearly"
    (sortNewestFirst backups) _ _ h5 k

/-! ### Retry transport lemmas -/

/-- An attempt outcome the transport retries on. -/
def retryableOutcome : AttemptOutcome → Bool
  | .ok s => isRetryableStatus s
  | .error e => isRetryableError e

/-- The `lastErr` variable after processing attempts `lo … lo+n-1`. -/
def lastErrFold (attempts : Nat → AttemptOutcome) (lo n : Nat)
    (init : Option String) : Option String :=
  (List.range' lo n).foldl
    (fun acc j => match attempts j with | .error e => some e | .ok _ => acc) init

/-- The `lastResp` variable after processing attempts `lo … lo+n-1`. -/
def lastRespFold (attempts : Nat → AttemptOutcome) (lo n : Nat)
    (init : Option Nat) : Option Nat :=
  (List.range' lo n).foldl
    (fun acc j => match attempts j with | .ok s => some s | .error _ => acc) init

theorem ctxDoneAt_none (i : Nat) : ctxDoneAt none i = false := rfl

/-- One full loop iteration on a retryable outcome with the sleep taken
(no cancellation, not the last attempt). -/
theorem rtLoop_step_retryable (attempts : Nat → AttemptOutcome) (mr : Nat) (D : Int)
    (fuel i c : Nat) (lastErr : Option String) (lastResp : Option Nat)
    (made : Nat) (sleeps : List Int)
    (hret : retryableOutcome (attempts i) = true) (hlt : i < mr) :
    rtLoop attempts none mr D (fuel + 1) i c lastErr lastResp made sleeps
      = rtLoop attempts none mr D fuel (i + 1) (c + 3)
          (match attempts i with | .error e => some e | .ok _ => lastErr)
          (match attempts i with | .ok s => some s | .error _ => lastResp)
          (made + 1) (sleeps ++ [D * 2 ^ i]) := by
  rw [rtLoop]
  cases hat : attempts i with
  | ok s =>
    have hrs : isRetryableStatus s = true := by
      simpa [retryableOutcome, hat] using hret
    simp [ctxDoneAt_none, hrs, hlt]
  | error e =>
    have hre : isRetryableError e = true := by
      simpa [retryableOutcome, hat] using hret
    simp [ctxDoneAt_none, hre, hlt]

/-- The final loop iteration (`i = mr`) on a retryable outcome: no sleep,
fall through to the next loop test (no cancellation). -/
theorem rtLoop_step_last (attempts : Nat → AttemptOutcome) (mr : Nat) (D : Int)
    (fuel c : Nat) (lastErr : Option String) (lastResp : Option Nat)
    (made : Nat) (sleeps : List Int)
    (hret : retryableOutcome (attempts mr) = true) :
    rtLoop attempts none mr D (fuel + 1) mr c lastErr lastResp made sleeps
      = rtLoop attempts none mr D fuel (mr + 1) (c + 2)
          (match attempts mr with | .error e => some e | .ok _ => lastErr)
          (match attempts mr with | .ok s => some s | .error _ => lastResp)
          (made + 1) sleeps := by
  rw [rtLoop]
  cases hat : attempts mr with
  | ok s =>
    have hrs : isRetryableStatus s = true := by
      simpa [retryableOutcome, hat] using hret
    simp [ctxDoneAt_none, hrs]
  | error e =>
    have hre : isRetryableError e = true := by
      simpa [retryableOutcome, hat] using hret
    simp [ctxDoneAt_none, hre]

/-- A non-retryable outcome is returned at once (no cancellation). -/
theorem rtLoop_step_nonretryable (attempts : Nat → AttemptOutcome) (mr : Nat) (D : Int)
    (fuel i c : Nat) (lastErr : Option String) (lastResp : Option Nat)
    (made : Nat) (sleeps : List Int)
    (hnr : retryableOutcome (attempts i) = false) :
    rtLoop attempts none mr D (fuel + 1) i c lastErr lastResp made sleeps
      = ⟨(match attempts i with
          | .ok s => .resp s
          | .error e => .fail (.transport e)), made + 1, sleeps⟩ := by
  rw [rtLoop]
  cases hat : attempts i with
  | ok s =>
    have hrs : isRetryableStatus s = false := by
      simpa [retryableOutcome, hat] using hnr
    simp [ctxDoneAt_none, hrs]
  | error e =>
    have hre : isRetryableError e = false := by
      simpa [retryableOutcome, hat] using hnr
    simp [ctxDoneAt_none, hre]

theorem rtLoop_made_mono (attempts : Nat → AttemptOutcome) (cancel : Option Nat)
    (mr : Nat) (D : Int) :
    ∀ (fuel i c : Nat) (lastErr : Option String) (lastResp : Option Nat)
      (made : Nat) (sleeps : List Int),
      made ≤ (rtLoop attempts cancel mr D fuel i c lastErr lastResp made sleeps).attemptsMade := by
  intro fuel
  induction fuel with
  | zero => intro i c le lr made sleeps; simp [rtLoop]
  | succ fuel ih =>
    intro i c le lr made sleeps
    rw [rtLoop]
    split
    · simp
    · cases hat : attempts i <;> simp only [hat] <;> repeat' split
      all_goals first
        | exact le_trans (Nat.le_succ made) (ih _ _ _ _ _ _)
        | simp

/-- Each loop iteration performs at most one attempt. -/
theorem rtLoop_made_le (attempts : Nat → AttemptOutcome) (cancel : Option Nat)
    (mr : Nat) (D : Int) :
    ∀ (fuel i c : Nat) (lastErr : Option String) (lastResp : Option Nat)
      (made : Nat) (sleeps : List Int),
      (rtLoop attempts cancel mr D fuel i c lastErr lastResp made sleeps).attemptsMade
        ≤ made + fuel := by
  intro fuel
  induction fuel with
  | zero => intro i c le lr made sleeps; simp [rtLoop]
  | succ fuel ih =>
    intro i c le lr made sleeps
    have hle : ∀ (i c : Nat) (le : Option String) (lr : Option Nat) (sl : List Int),
        (rtLoop attempts cancel mr D fuel i c le lr (made + 1) sl).attemptsMade
          ≤ made + (fuel + 1) := by
      intro i c le lr sl
      calc (rtLoop attempts cancel mr D fuel i c le lr (made + 1) sl).attemptsMade
          ≤ made + 1 + fuel := ih _ _ _ _ _ _
        _ = made + (fuel + 1) := by omega
    rw [rtLoop]
    split
    · simp
    · cases hat : attempts i <;> simp only [hat] <;> repeat' split
      all_goals first
        | exact hle _ _ _ _ _
        | simp

theorem lastErrFold_succ (attempts : Nat → AttemptOutcome) (i n : Nat)
    (init : Option String) :
    lastErrFold attempts i (n + 1) init
      = lastErrFold attempts (i + 1) n
          (match attempts i with | .error e => some e | .ok _ => init) := by
  simp [lastErrFold, List.range'_succ]

theorem lastRespFold_succ (attempts : Nat → AttemptOutcome) (i n : Nat)
    (init : Option Nat) :
    lastRespFold attempts i (n + 1) init
      = lastRespFold attempts (i + 1) n
          (match attempts i with | .ok s => some s | .error _ => init) := by
  simp [lastRespFold, List.range'_succ]

theorem lastErrFold_concat (attempts : Nat → AttemptOutcome) (i n : Nat)
    (init : Option String) :
    lastErrFold attempts i (n + 1) init
      = (match attempts (i + n) with
         | .error e => some e
         | .ok _ => lastErrFold attempts i n init) := by
  simp [lastErrFold, List.range'_concat, List.foldl_append]

theorem lastRespFold_concat (attempts : Nat → AttemptOutcome) (i n : Nat)
    (init : Option Nat) :
    lastRespFold attempts i (n + 1) init
      = (match attempts (i + n) with
         | .ok s => some s
         | .error _ => lastRespFold attempts i n init) := by
  simp [lastRespFold, List.range'_concat, List.foldl_append]

/-- Run the loop through `n` consecutive retryable attempts, each
followed by its backoff sleep (no cancellation). -/
theorem rtLoop_reach (attempts : Nat → AttemptOutcome) (mr : Nat) (D : Int) :
    ∀ (n i c : Nat) (lastErr : Option String) (lastResp : Option Nat)
      (made : Nat) (sleeps : List Int),
      i + n ≤ mr →
      (∀ j, j < n → retryableOutcome (attempts (i + j)) = true) →
      rtLoop attempts none mr D (mr + 1 - i) i c lastErr lastResp made sleeps
        = rtLoop attempts none mr D (mr + 1 - (i + n)) (i + n) (c + 3 * n)
            (lastErrFold attempts i n lastErr) (lastRespFold attempts i n lastResp)
            (made + n) (sleeps ++ (List.range' i n).map (fun k => D * 2 ^ k)) := by
  intro n
  induction n with
  | zero =>
    intro i c lastErr lastResp made sleeps _ _
    simp [lastErrFold, lastRespFold]
  | succ n ih =>
    intro i c lastErr lastResp made sleeps hle hall
    have hlt : i < mr := by omega
    have hret : retryableOutcome (attempts i) = true := by
      have := hall 0 (by omega)
      simpa using this
    rw [show mr + 1 - i = (mr - i) + 1 from by omega,
      rtLoop_step_retryable attempts mr D (mr - i) i c lastErr lastResp made sleeps
        hret hlt,
      show mr - i = mr + 1 - (i + 1) from by omega,
      ih (i + 1) (c + 3) _ _ (made + 1) _ (by omega)
        (fun j hj => by
          have := hall (j + 1) (by omega)
          simpa [Nat.add_assoc, Nat.add_comm 1 j] using this)]
    rw [show i + 1 + n = i + (n + 1) from by omega,
      show c + 3 + 3 * n = c + 3 * (n + 1) from by omega,
      show made + 1 + n = made + (n + 1) from by omega,
      ← lastErrFold_succ, ← lastRespFold_succ]
    rw [List.range'_succ, List.map_cons, List.append_assoc]
    rfl

/-- Exhausting the retry budget over retryable attempts: `mr + 1`
attempts, the full backoff schedule, and the final `lastErr` /
`lastResp` return. -/
theorem rtLoop_exhaust (attempts : Nat → AttemptOutcome) (mr : Nat) (D : Int)
    (hall : ∀ j, j ≤ mr → retryableOutcome (attempts j) = true) :
    rtLoop attempts none mr D (mr + 1) 0 0 none none 0 []
      = ⟨(match lastErrFold attempts 0 (mr + 1) none with
          | some e => .fail (.transport e)
          | none =>
            (match lastRespFold attempts 0 (mr + 1) none with
             | some s => .resp s
             | none => .fail .noError)),
         mr + 1, (List.range' 0 mr).map (fun k => D * 2 ^ k)⟩ := by
  have hreach := rtLoop_reach attempts mr D mr 0 0 none none 0 []
    (by omega) (fun j hj => by simpa using hall j (by omega))
  simp only [Nat.zero_add, Nat.sub_zero, List.nil_append] at hreach
  rw [show mr + 1 - mr = 0 + 1 from by omega] at hreach
  rw [hreach,
    rtLoop_step_last attempts mr D 0 (3 * mr)
      (lastErrFold attempts 0 mr none) (lastRespFold attempts 0 mr none) mr
      ((List.range' 0 mr).map (fun k => D * 2 ^ k)) (hall mr (le_refl mr)),
    rtLoop]
  have herr := lastErrFold_concat attempts 0 mr none
  have hresp := lastRespFold_concat attempts 0 mr none
  simp only [Nat.zero_add] at herr hresp
  rw [← herr, ← hresp]
  cases hfe : lastErrFold attempts 0 (mr + 1) none with
  | some e => simp [rtFinal, hfe]
  | none =>
    cases hfr : lastRespFold attempts 0 (mr + 1) none with
    | some s => simp [rtFinal, hfe, hfr]
    | none => simp [rtFinal, hfe, hfr, ctxDoneAt_none]

/-- The accumulated sleeps are always the geometric backoff schedule
`D, 2D, 4D, …` (for any cancellation behaviour). -/
theorem rtLoop_sleeps_geom (attempts : Nat → AttemptOutcome) (cancel : Option Nat)
    (mr : Nat) (D : Int) :
    ∀ (fuel i c : Nat) (lastErr : Option String) (lastResp : Option Nat)
      (made : Nat),
      fuel + i ≤ mr + 1 →
      (rtLoop attempts cancel mr D fuel i c lastErr lastResp made
          ((List.range i).map (fun k => D * 2 ^ k))).sleeps
        = (List.range
            (rtLoop attempts cancel mr D fuel i c lastErr lastResp made
              ((List.range i).map (fun k => D * 2 ^ k))).sleeps.length).map
            (fun k => D * 2 ^ k) := by
  intro fuel
  induction fuel with
  | zero =>
    intro i c le lr made _
    simp [rtLoop]
  | succ fuel ih =>
    intro i c le lr made hfi
    rw [rtLoop]
    split
    · simp
    · cases hat : attempts i <;> simp only [hat] <;> repeat' split
      all_goals first
        | simp
        | (rw [show (List.range i).map (fun k => D * 2 ^ k) ++ [D * 2 ^ i]
                = (List.range (i + 1)).map (fun k => D * 2 ^ k) from by
              simp [List.range_succ]]
           exact ih (i + 1) _ _ _ _ (by omega))
        | (have hf0 : fuel = 0 := by omega
           subst hf0
           simp [rtLoop])

theorem ctxDoneAt_some_false (m i : Nat) (h : i < m) : ctxDoneAt (some m) i = false := by
  simp [ctxDoneAt]
  omega

theorem ctxDoneAt_some_true (m i : Nat) (h : m ≤ i) : ctxDoneAt (some m) i = true := by
  simp [ctxDoneAt]
  omega

/-- Variant of `rtLoop_step_retryable` under a pending cancellation that
has not fired by the end of this iteration's sleep. -/
theorem rtLoop_step_retryable_cancel (attempts : Nat → AttemptOutcome) (m mr : Nat)
    (D : Int) (fuel i c : Nat) (lastErr : Option String) (lastResp : Option Nat)
    (made : Nat) (sleeps : List Int)
    (hret : retryableOutcome (attempts i) = true) (hlt : i < mr) (hc : c + 3 ≤ m) :
    rtLoop attempts (some m) mr D (fuel + 1) i c lastErr lastResp made sleeps
      = rtLoop attempts (some m) mr D fuel (i + 1) (c + 3)
          (match attempts i with | .error e => some e | .ok _ => lastErr)
          (match attempts i with | .ok s => some s | .error _ => lastResp)
          (made + 1) (sleeps ++ [D * 2 ^ i]) := by
  have h0 := ctxDoneAt_some_false m c (by omega)
  have h1 := ctxDoneAt_some_false m (c + 1) (by omega)
  have h2 := ctxDoneAt_some_false m (c + 2) (by omega)
  rw [rtLoop]
  cases hat : attempts i with
  | ok s =>
    have hrs : isRetryableStatus s = true := by
      simpa [retryableOutcome, hat] using hret
    simp [h0, h1, h2, hrs, hlt]
  | error e =>
    have hre : isRetryableError e = true := by
      simpa [retryableOutcome, hat] using hret
    simp [h0, h1, h2, hre, hlt]

/-- A cancellation that fires exactly at this iteration's sleep `select`:
the transport returns the current error, or `lastErr` / the cancellation
when the retryable outcome was a response. -/
theorem rtLoop_step_sleep_cancel (attempts : Nat → AttemptOutcome) (mr : Nat)
    (D : Int) (fuel i c : Nat) (lastErr : Option String) (lastResp : Option Nat)
    (made : Nat) (sleeps : List Int)
    (hret : retryableOutcome (attempts i) = true) (hlt : i < mr) :
    rtLoop attempts (some (c + 2)) mr D (fuel + 1) i c lastErr lastResp made sleeps
      = ⟨(match attempts i with
          | .error e => .fail (.transport e)
          | .ok _ => sleepCancelReturn lastErr), made + 1, sleeps⟩ := by
  have h0 := ctxDoneAt_some_false (c + 2) c (by omega)
  have h1 := ctxDoneAt_some_false (c + 2) (c + 1) (by omega)
  have h2 := ctxDoneAt_some_true (c + 2) (c + 2) (le_refl _)
  rw [rtLoop]
  cases hat : attempts i with
  | ok s =>
    have hrs : isRetryableStatus s = true := by
      simpa [retryableOutcome, hat] using hret
    simp [h0, h1, h2, hrs, hlt]
  | error e =>
    have hre : isRetryableError e = true := by
      simpa [retryableOutcome, hat] using hret
    simp [h0, h1, h2, hre, hlt]

/-- Cancel-aware variant of `rtLoop_reach`: the loop runs `n` full
iterations as long as every consulted checkpoint precedes the
cancellation point. -/
theorem rtLoop_reach_cancel (attempts : Nat → AttemptOutcome) (m mr : Nat) (D : Int) :
    ∀ (n i c : Nat) (lastErr : Option String) (lastResp : Option Nat)
      (made : Nat) (sleeps : List Int),
      i + n ≤ mr →
      c + 3 * n ≤ m →
      (∀ j, j < n → retryableOutcome (attempts (i + j)) = true) →
      rtLoop attempts (some m) mr D (mr + 1 - i) i c lastErr lastResp made sleeps
        = rtLoop attempts (some m) mr D (mr + 1 - (i + n)) (i + n) (c + 3 * n)
            (lastErrFold attempts i n lastErr) (lastRespFold attempts i n lastResp)
            (made + n) (sleeps ++ (List.range' i n).map (fun k => D * 2 ^ k)) := by
  intro n
  induction n with
  | zero =>
    intro i c lastErr lastResp made sleeps _ _ _
    simp [lastErrFold, lastRespFold]
  | succ n ih =>
    intro i c lastErr lastResp made sleeps hle hcm hall
    have hlt : i < mr := by omega
    have hret : retryableOutcome (attempts i) = true := by
      have := hall 0 (by omega)
      simpa using this
    rw [show mr + 1 - i = (mr - i) + 1 from by omega,
      rtLoop_step_retryable_cancel attempts m mr D (mr - i) i c lastErr lastResp
        made sleeps hret hlt (by omega),
      show mr - i = mr + 1 - (i + 1) from by omega,
      ih (i + 1) (c + 3) _ _ (made + 1) _ (by omega) (by omega)
        (fun j hj => by
          have := hall (j + 1) (by omega)
          simpa [Nat.add_assoc, Nat.add_comm 1 j] using this)]
    rw [show i + 1 + n = i + (n + 1) from by omega,
      show c + 3 + 3 * n = c + 3 * (n + 1) from by omega,
      show made + 1 + n = made + (n + 1) from by omega,
      ← lastErrFold_succ, ← lastRespFold_succ]
    rw [List.range'_succ, List.map_cons, List.append_assoc]
    rfl

/-- A cancellation firing during the sleep after attempt `k` (checkpoint
`3k + 2`): `k + 1` attempts, immediate return of the last error or the
cancellation. -/
theorem rtLoop_cancel_during_sleep (attempts : Nat → AttemptOutcome) (mr : Nat)
    (D : Int) (k : Nat) (hk : k < mr)
    (hall : ∀ j, j ≤ k → retryableOutcome (attempts j) = true) :
    rtLoop attempts (some (3 * k + 2)) mr D (mr + 1) 0 0 none none 0 []
      = ⟨(match attempts k with
          | .error e => .fail (.transport e)
          | .ok _ => sleepCancelReturn (lastErrFold attempts 0 k none)), k + 1,
         (List.range' 0 k).map (fun j => D * 2 ^ j)⟩ := by
  have hreach := rtLoop_reach_cancel attempts (3 * k + 2) mr D k 0 0 none none 0 []
    (by omega) (by omega) (fun j hj => by simpa using hall j (by omega))
  simp only [Nat.zero_add, Nat.sub_zero, List.nil_append] at hreach
  rw [hreach, show mr + 1 - k = (mr - k - 1) + 1 + 1 from by omega]
  have hstep := rtLoop_step_sleep_cancel attempts mr D (mr - k - 1 + 1) k (3 * k)
    (lastErrFold attempts 0 k none) (lastRespFold attempts 0 k none) k
    ((List.range' 0 k).map (fun j => D * 2 ^ j)) (hall k (le_refl k)) hk
  rw [show (3 : Nat) * k + 2 = 3 * k + 2 from rfl] at hstep
  exact hstep

/-- With no cancellation and fuel remaining, at least one more attempt
is made. -/
theorem rtLoop_made_succ_le (attempts : Nat → AttemptOutcome) (mr : Nat) (D : Int)
    (fuel i c : Nat) (lastErr : Option String) (lastResp : Option Nat)
    (made : Nat) (sleeps : List Int) (hf : 1 ≤ fuel) :
    made + 1
      ≤ (rtLoop attempts none mr D fuel i c lastErr lastResp made sleeps).attemptsMade := by
  cases fuel with
  | zero => omega
  | succ fuel =>
    rw [rtLoop]
    rw [if_neg (by simp [ctxDoneAt_none])]
    cases hat : attempts i <;> simp only [hat] <;> repeat' split
    all_goals first
      | exact rtLoop_made_mono attempts none mr D _ _ _ _ _ _ _
      | simp

/-- Reaching a non-retryable attempt: it is returned at once with
`i + 1` attempts made and the backoff schedule up to it. -/
theorem rtLoop_reach_nonretryable (attempts : Nat → AttemptOutcome) (mr : Nat)
    (D : Int) (i : Nat) (hi : i ≤ mr)
    (hprev : ∀ j, j < i → retryableOutcome (attempts j) = true)
    (hnr : retryableOutcome (attempts i) = false) :
    rtLoop attempts none mr D (mr + 1) 0 0 none none 0 []
      = ⟨(match attempts i with
          | .ok s => .resp s
          | .error e => .fail (.transport e)), i + 1,
         (List.range' 0 i).map (fun k => D * 2 ^ k)⟩ := by
  have hreach := rtLoop_reach attempts mr D i 0 0 none none 0 []
    (by omega) (fun j hj => by simpa using hprev j hj)
  simp only [Nat.zero_add, Nat.sub_zero, List.nil_append] at hreach
  rw [hreach, show mr + 1 - i = (mr - i) + 1 from by omega,
    rtLoop_step_nonretryable attempts mr D (mr - i) i (3 * i)
      (lastErrFold attempts 0 i none) (lastRespFold attempts 0 i none) i
      ((List.range' 0 i).map (fun k => D * 2 ^ k)) hnr]

/-! ### Claims C4, C5, C6 -/

/-- **C4, counterexample**: with `MaxRetries = 0` and a retryable
transport error on every attempt, the transport performs 4 attempts,
not 1 — `MaxRetries ≤ 0` is normalized to the default 3. -/
theorem C4_zero_retries_counterexample :
    (roundTrip ⟨0, 1⟩ (fun _ => .error "timeout") none).attemptsMade = 4
    ∧ (roundTrip ⟨0, 1⟩ (fun _ => .error "timeout") none).attemptsMade ≠ 1 := by
  decide

/-- **C4 (amended)**: `MaxRetries = 0` behaves exactly like the default
`MaxRetries = 3`; a single attempt is made precisely when the first
outcome is non-retryable (with no cancellation pending). -/
theorem C4_zero_retries_amended (d : Int) (attempts : Nat → AttemptOutcome) :
    (∀ cancel, roundTrip ⟨0, d⟩ attempts cancel = roundTrip ⟨3, d⟩ attempts cancel)
    ∧ (retryableOutcome (attempts 0) = false →
        (roundTrip ⟨0, d⟩ attempts none).attemptsMade = 1)
    ∧ (retryableOutcome (attempts 0) = true →
        2 ≤ (roundTrip ⟨0, d⟩ attempts none).attemptsMade) := by
  refine ⟨?_, ?_, ?_⟩
  · intro cancel
    norm_num [roundTrip]
  · intro hnr
    simp only [roundTrip]
    norm_num
    rw [show Int.toNat 3 = 3 from rfl,
      rtLoop_step_nonretryable _ 3 _ 3 0 0 none none 0 [] hnr]
  · intro hret
    simp only [roundTrip]
    norm_num
    rw [show Int.toNat 3 = 3 from rfl,
      rtLoop_step_retryable _ 3 _ 3 0 0 none none 0 [] hret (by omega)]
    exact rtLoop_made_succ_le _ 3 _ 3 1 3 _ _ 1 _ (by omega)

/-- Witness for the amended C4: a non-retryable first outcome yields
exactly one attempt even with `MaxRetries = 0`. -/
theorem C4_zero_retries_amended_witness :
    (roundTrip ⟨0, 1⟩ (fun _ => .ok 200) none).attemptsMade = 1 :=
  (C4_zero_retries_amended 1 (fun _ => .ok 200)).2.1 (by decide)

/-- **C5**: the retryable statuses are exactly {429, 502, 503, 504}; an
error is retryable exactly when a contractual pattern occurs in its
lowercased message; a non-retryable error reached after retryable
attempts is returned immediately, and a non-retryable status
(any 2xx/3xx, 4xx except 429, or unlisted 5xx) is returned as-is. -/
theorem C5_retry_classification :
    (∀ s : Nat, isRetryableStatus s = true ↔ (s = 429 ∨ s = 502 ∨ s = 503 ∨ s = 504))
    ∧ (∀ msg : String, isRetryableError msg = true ↔
        ∃ p ∈ retryablePatterns, strContains (strToLower msg) p = true)
    ∧ (∀ (t : RetryTransport) (attempts : Nat → AttemptOutcome) (i : Nat) (e : String),
        0 < t.MaxRetries → 0 < t.BaseDelay → i ≤ t.MaxRetries.toNat →
        (∀ j, j < i → retryableOutcome (attempts j) = true) →
        attempts i = .error e → isRetryableError e = false →
        roundTrip t attempts none
          = ⟨.fail (.transport e), i + 1,
             (List.range' 0 i).map (fun k => t.BaseDelay * 2 ^ k)⟩)
    ∧ (∀ (t : RetryTransport) (attempts : Nat → AttemptOutcome) (i s : Nat),
        0 < t.MaxRetries → 0 < t.BaseDelay → i ≤ t.MaxRetries.toNat →
        (∀ j, j < i → retryableOutcome (attempts j) = true) →
        attempts i = .ok s → isRetryableStatus s = false →
        roundTrip t attempts none
          = ⟨.resp s, i + 1,
             (List.range' 0 i).map (fun k => t.BaseDelay * 2 ^ k)⟩) := by
  refine ⟨?_, ?_, ?_, ?_⟩
  · intro s
    simp only [isRetryableStatus, Bool.or_eq_true, beq_iff_eq]
    tauto
  · intro msg
    simp [isRetryableError, List.any_eq_true]
  · intro t attempts i e hm hD hi hprev hat hnr
    have hmr : (if t.MaxRetries ≤ 0 then (3 : Int) else t.MaxRetries) = t.MaxRetries :=
      if_neg (not_le.mpr hm)
    have hbd : (if t.BaseDelay ≤ 0 then defaultBaseDelay else t.BaseDelay)
        = t.BaseDelay := if_neg (not_le.mpr hD)
    simp only [roundTrip, hmr, hbd]
    rw [rtLoop_reach_nonretryable attempts t.MaxRetries.toNat t.BaseDelay i hi hprev
      (by simp [retryableOutcome, hat, hnr]), hat]
  · intro t attempts i s hm hD hi hprev hat hnr
    have hmr : (if t.MaxRetries ≤ 0 then (3 : Int) else t.MaxRetries) = t.MaxRetries :=
      if_neg (not_le.mpr hm)
    have hbd : (if t.BaseDelay ≤ 0 then defaultBaseDelay else t.BaseDelay)
        = t.BaseDelay := if_neg (not_le.mpr hD)
    simp only [roundTrip, hmr, hbd]
    rw [rtLoop_reach_nonretryable attempts t.MaxRetries.toNat t.BaseDelay i hi hprev
      (by simp [retryableOutcome, hat, hnr]), hat]

/-- Witness for C5: one retryable 502, then a 200, with
`MaxRetries = 3, BaseDelay = 10`: two attempts, one 10-unit sleep
(the spec's scenario "retry on 502 then 200"). -/
theorem C5_retry_classification_witness :
    roundTrip ⟨3, 10⟩ (fun i => if i == 0 then .ok 502 else .ok 200) none
      = ⟨.resp 200, 2, [10]⟩ := by
  have h := C5_retry_classification.2.2.2 ⟨3, 10⟩
    (fun i => if i == 0 then .ok 502 else .ok 200) 1 200
    (by decide) (by decide) (by decide)
    (fun j hj => by interval_cases j; decide) rfl (by decide)
  rw [h]
  decide

/-- **C6, counterexample**: `MaxRetries = 1 > 0`; the first attempt
returns a retryable 502 and the cancellation fires at the after-attempt
checkpoint (before any sleep).  The transport returns the 502 response —
neither the last observed error nor the cancellation error — refuting
the claim's cancellation clause. -/
theorem C6_cancel_before_sleep_counterexample :
    roundTrip ⟨1, 5⟩ (fun _ => .ok 502) (some 1) = ⟨.resp 502, 1, []⟩
    ∧ (roundTrip ⟨1, 5⟩ (fun _ => .ok 502) (some 1)).result ≠ .fail .canceled
    ∧ (roundTrip ⟨1, 5⟩ (fun _ => .ok 502) (some 1)).result
        ≠ .fail (.transport "") := by
  decide

/-- **C6 (amended)**: with `MaxRetries = m > 0` and `BaseDelay = D > 0`:
at most `m + 1` attempts for any cancellation behaviour; the performed
sleeps are always `D·2^0, D·2^1, …`; with no cancellation and all
outcomes retryable the budget is exhausted and the most recent error —
or, if no attempt errored, the most recent response — is returned after
`m + 1` attempts; a cancellation firing during the sleep after attempt
`k` ends the run at `k + 1` attempts with the current error if attempt
`k` failed, else the last observed error or the cancellation error; a
cancellation already pending at entry makes no attempt at all. -/
theorem C6_retry_backoff_cancellation (t : RetryTransport)
    (attempts : Nat → AttemptOutcome)
    (hm : 0 < t.MaxRetries) (hD : 0 < t.BaseDelay) :
    (∀ cancel, (roundTrip t attempts cancel).attemptsMade ≤ t.MaxRetries.toNat + 1)
    ∧ (∀ cancel, (roundTrip t attempts cancel).sleeps
        = (List.range (roundTrip t attempts cancel).sleeps.length).map
            (fun k => t.BaseDelay * 2 ^ k))
    ∧ ((∀ j, j ≤ t.MaxRetries.toNat → retryableOutcome (attempts j) = true) →
        roundTrip t attempts none
          = ⟨(match lastErrFold attempts 0 (t.MaxRetries.toNat + 1) none with
              | some e => .fail (.transport e)
              | none =>
                (match lastRespFold attempts 0 (t.MaxRetries.toNat + 1) none with
                 | some s => .resp s
                 | none => .fail .noError)),
             t.MaxRetries.toNat + 1,
             (List.range' 0 t.MaxRetries.toNat).map (fun k => t.BaseDelay * 2 ^ k)⟩)
    ∧ (∀ k, k < t.MaxRetries.toNat →
        (∀ j, j ≤ k → retryableOutcome (attempts j) = true) →
        roundTrip t attempts (some (3 * k + 2))
          = ⟨(match attempts k with
              | .error e => .fail (.transport e)
              | .ok _ => sleepCancelReturn (lastErrFold attempts 0 k none)), k + 1,
             (List.range' 0 k).map (fun j => t.BaseDelay * 2 ^ j)⟩)
    ∧ roundTrip t attempts (some 0) = ⟨.fail .canceled, 0, []⟩ := by
  have hmr : (if t.MaxRetries ≤ 0 then (3 : Int) else t.MaxRetries) = t.MaxRetries :=
    if_neg (not_le.mpr hm)
  have hbd : (if t.BaseDelay ≤ 0 then defaultBaseDelay else t.BaseDelay)
      = t.BaseDelay := if_neg (not_le.mpr hD)
  refine ⟨?_, ?_, ?_, ?_, ?_⟩
  · intro cancel
    simp only [roundTrip, hmr, hbd]
    have := rtLoop_made_le attempts cancel t.MaxRetries.toNat t.BaseDelay
      (t.MaxRetries.toNat + 1) 0 0 none none 0 []
    omega
  · intro cancel
    simp only [roundTrip, hmr, hbd]
    have := rtLoop_sleeps_geom attempts cancel t.MaxRetries.toNat t.BaseDelay
      (t.MaxRetries.toNat + 1) 0 0 none none 0 (by omega)
    simpa using this
  · intro hall
    simp only [roundTrip, hmr, hbd]
    exact rtLoop_exhaust attempts t.MaxRetries.toNat t.BaseDelay hall
  · intro k hk hall
    simp only [roundTrip, hmr, hbd]
    exact rtLoop_cancel_during_sleep attempts t.MaxRetries.toNat t.BaseDelay k hk hall
  · simp only [roundTrip, hmr, hbd]
    rw [show t.MaxRetries.toNat + 1 = (t.MaxRetries.toNat) + 1 from rfl, rtLoop]
    rw [if_pos (ctxDoneAt_some_true 0 0 (le_refl 0))]
    simp [rtFinal, ctxDoneAt_some_true]

/-- Witness for the amended C6: `MaxRetries = 1, BaseDelay = 5`,
retryable errors throughout, no cancellation: 2 attempts, sleeps `[5]`,
final return of the last error. -/
theorem C6_retry_backoff_cancellation_witness :
    roundTrip ⟨1, 5⟩ (fun _ => .error "unexpected EOF") none
      = ⟨.fail (.transport "unexpected EOF"), 2, [5]⟩ := by
  have h := (C6_retry_backoff_cancellation ⟨1, 5⟩ (fun _ => .error "unexpected EOF")
    (by decide) (by decide)).2.2.1 (fun j _ => by decide)
  rw [h]
  decide

/-! ## Orchestrator: per-app run (`runBackup`, main.go)

`runBackup` is modelled over the observable outcomes of its
collaborators: the app client's backup (production plus buffering of the
stream, which share the early-return behaviour) and, per backend, the
upload and the retention pass.  The log events record what the loop did
with each backend. -/

structure UploadMeta where
  fileName : String
  size : Int
  deriving Repr, DecidableEq

/-- One declared backend's behaviour for this run. -/
structure BackendRun where
  upload : Except String UploadMeta
  retentionDeleted : Except String Int
  deriving Repr, DecidableEq

inductive OrchEvent where
  | uploadFailed (msg : String)
  | uploaded (fileName : String) (size : Int)
  | retentionFailed (msg : String)
  | retentionCleaned (deleted : Int)
  deriving Repr, DecidableEq

/-- The backend fan-out loop of `runBackup`: on upload failure log and
`continue`; on success apply retention and log its outcome. -/
def processBackends : List BackendRun → List OrchEvent
  | [] => []
  | b :: rest =>
    match b.upload with
    | .error e => .uploadFailed e :: processBackends rest
    | .ok meta =>
      .uploaded meta.fileName meta.size ::
        ((match b.retentionDeleted with
          | .error e => [OrchEvent.retentionFailed e]
          | .ok n => if 0 < n then [OrchEvent.retentionCleaned n] else [])
          ++ processBackends rest)

/-- `runBackup`: produce the artifact (the combined
`client.Backup` + `io.ReadAll` step; an error here returns early), then
fan out to every backend; the function returns `nil` after the loop. -/
def runBackup (appResult : Except String (List Nat)) (backends : List BackendRun) :
    Except String Unit × List OrchEvent :=
  match appResult with
  | .error e => (.error ("backup failed: " ++ e), [])
  | .ok _ => (.ok (), processBackends backends)

/-- Upload events (failure or success) of the fan-out, one per backend
reached. -/
def uploadEvents : List OrchEvent → Nat
  | [] => 0
  | .uploadFailed _ :: rest => uploadEvents rest + 1
  | .uploaded _ _ :: rest => uploadEvents rest + 1
  | .retentionFailed _ :: rest => uploadEvents rest
  | .retentionCleaned _ :: rest => uploadEvents rest

/-- Backends whose upload failed. -/
def failedBackends (backends : List BackendRun) : Nat :=
  (backends.filter (fun b => match b.upload with | .error _ => true | .ok _ => false)).length

theorem uploadEvents_processBackends (backends : List BackendRun) :
    uploadEvents (processBackends backends) = backends.length := by
  induction backends with
  | nil => rfl
  | cons b rest ih =>
    cases hu : b.upload with
    | error e => simp [processBackends, hu, uploadEvents, ih]
    | ok meta =>
      cases hr : b.retentionDeleted with
      | error e => simp [processBackends, hu, hr, uploadEvents, ih]
      | ok n =>
        by_cases hn : 0 < n
        · simp [processBackends, hu, hr, hn, uploadEvents, ih]
        · simp [processBackends, hu, hr, hn, uploadEvents, ih]

/-! ### Claim C3 -/

/-- **C3, counterexample**: a run whose single (hence every) backend
fails still returns success — `runBackup` returns `nil` regardless of
upload failures, so "success iff zero backends failed" is false. -/
theorem C3_runBackup_counterexample :
    (runBackup (.ok [1]) [⟨.error "boom", .ok 0⟩]).1 = .ok ()
    ∧ failedBackends [(⟨.error "boom", .ok 0⟩ : BackendRun)] = 1 := by
  decide

/-- **C3 (amended)**: a failed upload is logged and the loop continues —
every declared backend is attempted — but the run's return value only
reflects artifact production: it is success whenever the app backup and
buffering succeeded, no matter how many backends failed, and an error
only when producing/reading the artifact failed. -/
theorem C3_runBackup_amended (appResult : Except String (List Nat))
    (backends : List BackendRun) :
    uploadEvents (runBackup (.ok []) backends).2 = backends.length
    ∧ (∀ data : List Nat, (runBackup (.ok data) backends).1 = .ok ())
    ∧ (∀ e, (runBackup (.error e) backends).1 = .error ("backup failed: " ++ e))
    ∧ ((runBackup appResult backends).1 = .ok ()
        ↔ ∃ data, appResult = .ok data) := by
  refine ⟨?_, ?_, ?_, ?_⟩
  · simp [runBackup, uploadEvents_processBackends]
  · intro data
    simp [runBackup]
  · intro e
    simp [runBackup]
  · cases appResult with
    | ok data => simp [runBackup]
    | error e => simp [runBackup]

/-! ## Artifact processing (src/internal/backup/postgres.go)

ZIP archives are modelled at the entry level: an archive is its list of
entries, each carrying its name, contents, and the remaining header
metadata (abstracted to one field; `CreateEnhancedBackup` copies each
original entry's header wholesale via `CreateHeader(&file.FileHeader)`,
while appended dump entries get a fresh default header).  A dump map is
an association list with distinct keys (a Go map). -/

structure ZipEntry where
  name : String
  data : List Nat
  header : Nat
  deriving Repr, DecidableEq

/-- The copy loop of `CreateEnhancedBackup`: every original entry,
header preserved, in order. -/
def copyEntries : List ZipEntry → List ZipEntry
  | [] => []
  | e :: rest => e :: copyEntries rest

/-- The append loop of `CreateEnhancedBackup`: one fresh entry
`postgres/<name>` per dump. -/
def addDumpEntries : List (String × List Nat) → List ZipEntry
  | [] => []
  | (n, d) :: rest => ⟨"postgres/" ++ n, d, 0⟩ :: addDumpEntries rest

/-- `CreateEnhancedBackup`: copy all original entries, then append the
dump entries. -/
def CreateEnhancedBackup (originalZip : List ZipEntry)
    (pgDumps : List (String × List Nat)) : List ZipEntry :=
  copyEntries originalZip ++ addDumpEntries pgDumps

/-- The extraction loop of `ExtractPostgresDumpsFromZip` with its
accumulated Go map. -/
def extractLoop : List ZipEntry → List (String × List Nat) → List (String × List Nat)
  | [], dumps => dumps
  | e :: rest, dumps =>
    if strStartsWith e.name "postgres/" && strEndsWith e.name ".sql" then
      extractLoop rest (goInsert dumps (strTrimPre e.name "postgres/") e.data)
    else
      extractLoop rest dumps

/-- `ExtractPostgresDumpsFromZip`: contents of every `postgres/*.sql`
entry, keyed by the name without the `postgres/` prefix. -/
def ExtractPostgresDumpsFromZip (zipData : List ZipEntry) : List (String × List Nat) :=
  extractLoop zipData []

theorem copyEntries_id (l : List ZipEntry) : copyEntries l = l := by
  induction l with
  | nil => rfl
  | cons e rest ih => simp [copyEntries, ih]

theorem addDumpEntries_eq_map (dumps : List (String × List Nat)) :
    addDumpEntries dumps
      = dumps.map (fun p => ⟨"postgres/" ++ p.1, p.2, 0⟩) := by
  induction dumps with
  | nil => rfl
  | cons p rest ih =>
    obtain ⟨n, d⟩ := p
    simp [addDumpEntries, ih]

theorem extractLoop_append (xs ys : List ZipEntry) (acc : List (String × List Nat)) :
    extractLoop (xs ++ ys) acc = extractLoop ys (extractLoop xs acc) := by
  induction xs generalizing acc with
  | nil => rfl
  | cons e rest ih =>
    by_cases h : (strStartsWith e.name "postgres/" && strEndsWith e.name ".sql") = true
    · simp [extractLoop, h, ih]
    · simp [extractLoop, h, ih]

theorem strStartsWith_append (pre rest : String) :
    strStartsWith (pre ++ rest) pre = true := by
  simp only [strStartsWith, decide_eq_true_eq, String.data_append]
  exact List.prefix_append pre.data rest.data

theorem strEndsWith_append (pre rest suf : String)
    (h : strEndsWith rest suf = true) :
    strEndsWith (pre ++ rest) suf = true := by
  simp only [strEndsWith, decide_eq_true_eq, String.data_append] at h ⊢
  exact h.trans (List.suffix_append pre.data rest.data)

theorem strTrimPre_append (pre rest : String) :
    strTrimPre (pre ++ rest) pre = rest := by
  simp only [strTrimPre, strStartsWith_append, if_true]
  have h : (pre ++ rest).data.drop pre.data.length = rest.data := by
    rw [String.data_append, List.drop_left]
  rw [h]

theorem goLookup_none_of_not_mem {V : Type} :
    ∀ (m : List (String × V)) (k : String),
      k ∉ m.map Prod.fst → goLookup m k = none := by
  intro m
  induction m with
  | nil => intro k _; rfl
  | cons p rest ih =>
    intro k h
    obtain ⟨k0, v0⟩ := p
    simp only [List.map_cons, List.mem_cons] at h
    push_neg at h
    rw [goLookup, if_neg (fun hh => h.1 hh.symm)]
    exact ih k h.2

/-- Extracting the appended dump entries folds them into the map with
Go-map (`D` wins over `acc`) lookup semantics, provided every dump name
carries the `.sql` suffix. -/
theorem extractLoop_addDumpEntries (dumps : List (String × List Nat))
    (acc : List (String × List Nat))
    (hsql : ∀ p ∈ dumps, strEndsWith p.1 ".sql" = true)
    (hkeys : (dumps.map Prod.fst).Nodup) (k : String) :
    goLookup (extractLoop (addDumpEntries dumps) acc) k
      = (goLookup dumps k).orElse (fun _ => goLookup acc k) := by
  induction dumps generalizing acc with
  | nil => simp [addDumpEntries, extractLoop, goLookup]
  | cons p rest ih =>
    obtain ⟨n, d⟩ := p
    have hn : strEndsWith n ".sql" = true := hsql ⟨n, d⟩ (List.mem_cons_self _ _)
    have hfilter : (strStartsWith ("postgres/" ++ n) "postgres/"
        && strEndsWith ("postgres/" ++ n) ".sql") = true := by
      rw [strStartsWith_append, strEndsWith_append "postgres/" n ".sql" hn]
      rfl
    rw [addDumpEntries]
    simp only [extractLoop, hfilter, if_true, strTrimPre_append]
    simp only [List.map_cons, List.nodup_cons] at hkeys
    rw [ih (goInsert acc n d) (fun q hq => hsql q (List.mem_cons_of_mem _ hq)) hkeys.2 ]
    by_cases hk : n = k
    · subst hk
      have hnone : goLookup rest n = none :=
        goLookup_none_of_not_mem rest n (by simpa using hkeys.1)
      simp [goLookup, hnone, goLookup_goInsert_same, Option.orElse]
    · simp [goLookup, hk, goLookup_goInsert_other acc n k d hk]

/-! ### Claim C7 -/

/-- **C7, counterexample**: a dump whose name does not end in `.sql`
(here `"foo"`) is appended as `postgres/foo` but never recovered by
extraction, which requires the `.sql` suffix — so
`ExtractDumps(Enhance(Z, D)) = D ∪ …` fails for this `D` even with
`Z = []`. -/
theorem C7_enhance_extract_counterexample :
    ExtractPostgresDumpsFromZip (CreateEnhancedBackup [] [("foo", [1])]) = []
    ∧ goLookup (ExtractPostgresDumpsFromZip (CreateEnhancedBackup [] [("foo", [1])]))
        "foo" ≠ goLookup [("foo", [1])] "foo" := by
  decide

/-- **C7 (amended)**: for every entry list `Z` and every dump map `D`
whose keys end in `.sql` (as every dump produced by `DumpAllDatabases`
does), extraction of the enhanced archive agrees with `D` overriding the
`postgres/*.sql` entries already in `Z`; and enhancement preserves every
original entry (header included) in order, appending the dump entries
under `postgres/<name>` without replacing anything. -/
theorem C7_enhance_extract (originalZip : List ZipEntry)
    (pgDumps : List (String × List Nat))
    (hsql : ∀ p ∈ pgDumps, strEndsWith p.1 ".sql" = true)
    (hkeys : (pgDumps.map Prod.fst).Nodup) :
    (∀ k, goLookup (ExtractPostgresDumpsFromZip
            (CreateEnhancedBackup originalZip pgDumps)) k
        = (goLookup pgDumps k).orElse
            (fun _ => goLookup (ExtractPostgresDumpsFromZip originalZip) k))
    ∧ CreateEnhancedBackup originalZip pgDumps
        = originalZip ++ pgDumps.map (fun p => ⟨"postgres/" ++ p.1, p.2, 0⟩) := by
  constructor
  · intro k
    rw [ExtractPostgresDumpsFromZip, CreateEnhancedBackup, copyEntries_id,
      extractLoop_append]
    exact extractLoop_addDumpEntries pgDumps _ hsql hkeys k
  · rw [CreateEnhancedBackup, copyEntries_id, addDumpEntries_eq_map]

/-- Witness for the amended C7: the spec's round-trip scenario — a ZIP
holding `config.xml`, enhanced with two dumps; extraction returns
exactly the dumps and `config.xml` is still present. -/
theorem C7_enhance_extract_witness :
    goLookup (ExtractPostgresDumpsFromZip
        (CreateEnhancedBackup [⟨"config.xml", [7], 1⟩]
          [("main_db.sql", [1]), ("log_db.sql", [2])])) "main_db.sql" = some [1]
    ∧ CreateEnhancedBackup [⟨"config.xml", [7], 1⟩]
          [("main_db.sql", [1]), ("log_db.sql", [2])]
        = [⟨"config.xml", [7], 1⟩, ⟨"postgres/main_db.sql", [1], 0⟩,
           ⟨"postgres/log_db.sql", [2], 0⟩] := by
  have h := C7_enhance_extract [⟨"config.xml", [7], 1⟩]
    [("main_db.sql", [1]), ("log_db.sql", [2])]
    (by decide) (by decide)
  constructor
  · rw [h.1 "main_db.sql"]
    decide
  · rw [h.2]
    decide

/-! ## Forms login (src/radarr/client.go, prowlarr client)

The login routines are modelled over the observable exchange: the
`POST /login` response (status and body) and the cookie jar for the base
URL after the response.  `RadarrClient.loginWithForms` checks only
status codes; `ProwlarrClient.loginWithForms` additionally requires a
cookie whose name ends in `Auth`. -/

structure HttpCookie where
  name : String
  value : String
  deriving Repr, DecidableEq

structure LoginHttpResponse where
  status : Nat
  body : String
  deriving Repr, DecidableEq

/-- The jar holds a cookie whose name ends in `"Auth"`. -/
def hasAuthCookie (jar : List HttpCookie) : Bool :=
  jar.any (fun cookie => strEndsWith cookie.name "Auth")

set_option linter.unusedVariables false in
/-- `RadarrClient.loginWithForms` (also the Sonarr client's shape):
401 and ≥400 fail; any other status is accepted — the cookie jar is
never consulted. -/
def radarrLoginWithForms (resp : LoginHttpResponse) (jarAfter : List HttpCookie) :
    Except String Unit :=
  if resp.status == 401 then .error "login failed: invalid credentials"
  else if 400 ≤ resp.status then
    .error ("login failed with status " ++ toString resp.status ++ ": " ++ resp.body)
  else .ok ()

/-- `ProwlarrClient.loginWithForms`: 401 and ≥400 fail; otherwise the
login succeeds only when an `Auth`-suffixed cookie was set. -/
def prowlarrLoginWithForms (resp : LoginHttpResponse) (jarAfter : List HttpCookie) :
    Except String Unit :=
  if resp.status == 401 then .error "login failed: invalid credentials"
  else if 400 ≤ resp.status then
    .error ("login failed with status " ++ toString resp.status ++ ": " ++ resp.body)
  else if hasAuthCookie jarAfter then .ok ()
  else .error "login failed: no auth cookie received (check username/password)"

/-- The accepted download content types of `downloadBackup`. -/
def validContentTypes : List String :=
  ["application/zip", "application/octet-stream", "application/x-zip-compressed",
   "application/x-zip"]

/-- The download validation of `RadarrClient.downloadBackup`: non-2xx
fails; a content type outside the allowed set (and non-empty) fails with
the "unexpected content type" error. -/
def radarrValidateDownload (status : Nat) (contentType : String) (body : String) :
    Except String Unit :=
  if status < 200 || 300 ≤ status then
    .error ("download error: " ++ toString status ++ " - " ++ body)
  else if contentType == "" || validContentTypes.contains contentType then .ok ()
  else .error ("unexpected content type: " ++ contentType
    ++ " (expected application/zip)")

/-! ### Claim C2 -/

/-- **C2, counterexample**: the Radarr client treats a 200 `/login`
response as a successful forms login although the jar holds no
`Auth`-suffixed cookie; the subsequent download of an HTML page then
fails with an error containing "unexpected content type" — refuting
both the "iff" and the required failure message for Radarr. -/
theorem C2_forms_login_counterexample :
    radarrLoginWithForms ⟨200, "<html>Login Page</html>"⟩ [] = .ok ()
    ∧ hasAuthCookie [] = false
    ∧ (radarrValidateDownload 200 "text/html" ""
        = .error "unexpected content type: text/html (expected application/zip)")
    ∧ strContains "unexpected content type: text/html (expected application/zip)"
        "unexpected content type" = true := by
  decide

/-- **C2 (amended)**: only the Prowlarr client's forms login is
successful iff the jar holds an `Auth`-suffixed cookie (besides the
status check); on a sub-400 response without such a cookie it fails with
an error mentioning the auth cookie and credentials and not the content
type.  The Radarr client accepts every sub-400 status outright, so a
cookie-less 200 login proceeds to the download, whose content-type check
is what fails on an HTML page. -/
theorem C2_forms_login_amended (resp : LoginHttpResponse) (jar : List HttpCookie) :
    (prowlarrLoginWithForms resp jar = .ok ()
      ↔ (resp.status < 400 ∧ hasAuthCookie jar = true))
    ∧ (resp.status < 400 → hasAuthCookie jar = false →
        prowlarrLoginWithForms resp jar
          = .error "login failed: no auth cookie received (check username/password)")
    ∧ strContains "login failed: no auth cookie received (check username/password)"
        "auth cookie" = true
    ∧ strContains "login failed: no auth cookie received (check username/password)"
        "credentials" = false
    ∧ strContains "login failed: no auth cookie received (check username/password)"
        "unexpected content type" = false
    ∧ (resp.status < 400 → radarrLoginWithForms resp jar = .ok ()) := by
  refine ⟨?_, ?_, by decide, by decide, by decide, ?_⟩
  · by_cases h401 : resp.status = 401
    · simp [prowlarrLoginWithForms, h401]
    · by_cases h400 : 400 ≤ resp.status
      · simp [prowlarrLoginWithForms, h401, h400, Nat.not_lt.mpr h400]
      · by_cases hck : hasAuthCookie jar
        · simp [prowlarrLoginWithForms, h401, h400, hck]
          omega
        · simp [prowlarrLoginWithForms, h401, h400, hck]
  · intro hlt hck
    have h401 : (resp.status == 401) = false := by
      simp
      omega
    have h400 : ¬ 400 ≤ resp.status := by omega
    simp [prowlarrLoginWithForms, h401, h400, hck]
  · intro hlt
    have h401 : (resp.status == 401) = false := by
      simp
      omega
    have h400 : ¬ 400 ≤ resp.status := by omega
    simp [radarrLoginWithForms, h401, h400]

/-- Witness for the amended C2: a 200 response with an empty jar — the
Prowlarr login fails with the auth-cookie error while the Radarr login
succeeds. -/
theorem C2_forms_login_amended_witness :
    prowlarrLoginWithForms ⟨200, ""⟩ []
        = .error "login failed: no auth cookie received (check username/password)"
    ∧ radarrLoginWithForms ⟨200, ""⟩ [] = .ok () :=
  ⟨(C2_forms_login_amended ⟨200, ""⟩ []).2.1 (by decide) (by decide),
   (C2_forms_login_amended ⟨200, ""⟩ []).2.2.2.2.2 (by decide)⟩

/-! ## Web-UI job runner (cmd/backuparr: executeBackupJob, finishJob)

A job's life is modelled as the sequence of mutations
`executeBackupJob` performs on it (log appends and the single
`finishJob`), applied to the job created by `startBackupJob`.  Wall
times are integers; Go's monotone clock guarantees the finishing time is
not before the starting time, which enters as a hypothesis.  The per-app
collaborator outcomes (`createClient`, `createBackends`, `runBackup`)
are the observable inputs. -/

structure AppCfgM where
  name : String
  appType : String
  deriving Repr, DecidableEq

structure TriggerReq where
  app : String
  all : Bool
  deriving Repr, DecidableEq

structure TResultM where
  app : String
  ok : Bool
  status : String
  error : Option String
  deriving Repr, DecidableEq

/-- The outcomes of one targeted app's pipeline during the job. -/
structure AppExec where
  createClientOk : Bool
  createBackendsOk : Bool
  runResult : Except String Unit
  deriving Repr, DecidableEq

/-- Display name resolution: `cfg.Name`, falling back to `cfg.AppType`. -/
def resolvedName (cfg : AppCfgM) : String :=
  if cfg.name = "" then cfg.appType else cfg.name

/-- `targetApp`: empty for an all-apps request, else the requested app. -/
def targetApp (req : TriggerReq) : String := if req.all then "" else req.app

/-- The loop's skip test: an app is processed unless a non-empty target
names a different app. -/
def appTargeted (req : TriggerReq) (cfg : AppCfgM) : Bool :=
  targetApp req == "" || resolvedName cfg == targetApp req

/-- The apps a request targets. -/
def targetedApps (req : TriggerReq) (apps : List (AppCfgM × AppExec)) :
    List (AppCfgM × AppExec) :=
  apps.filter (fun p => appTargeted req p.1)

/-- The single result row appended for a processed app. -/
def appResultOf (cfg : AppCfgM) (ex : AppExec) : TResultM :=
  if ex.createClientOk = false then
    ⟨resolvedName cfg, false, "failed", some "failed to create app client"⟩
  else if ex.createBackendsOk = false then
    ⟨resolvedName cfg, false, "failed", some "failed to create storage backends"⟩
  else
    match ex.runResult with
    | .error e => ⟨resolvedName cfg, false, "failed", some e⟩
    | .ok _ => ⟨resolvedName cfg, true, "ok", none⟩

/-- The `results` slice accumulated by the app loop. -/
def collectResults (req : TriggerReq) : List (AppCfgM × AppExec) → List TResultM
  | [] => []
  | (cfg, ex) :: rest =>
    if appTargeted req cfg then appResultOf cfg ex :: collectResults req rest
    else collectResults req rest

structure BackupJobM where
  startedAt : Int
  endedAt : Option Int
  running : Bool
  success : Option Bool
  results : List TResultM
  logs : List String
  deriving Repr, DecidableEq

/-- The job inserted by `startBackupJob`. -/
def newJob (t0 : Int) : BackupJobM :=
  ⟨t0, none, true, none, [], ["Backup job started"]⟩

/-- A mutation `executeBackupJob` applies to the job. -/
inductive JobEvent where
  | logLine (line : String)
  | finish (success : Bool) (results : List TResultM) (logs : List String)
  deriving Repr, DecidableEq

def isFinishEvent : JobEvent → Bool
  | .finish _ _ _ => true
  | .logLine _ => false

/-- The second log line of a processed app, per the branch taken. -/
def perAppLogMsg (ex : AppExec) : String :=
  if ex.createClientOk = false then "failed to create app client"
  else if ex.createBackendsOk = false then "failed to create storage backends"
  else
    match ex.runResult with
    | .error e => "failed: " ++ e
    | .ok _ => "backup completed"

/-- The log lines of the app loop, two per processed app. -/
def perAppEvents (req : TriggerReq) : List (AppCfgM × AppExec) → List JobEvent
  | [] => []
  | (cfg, ex) :: rest =>
    if appTargeted req cfg then
      .logLine ("[" ++ resolvedName cfg ++ "] Starting backup")
        :: .logLine ("[" ++ resolvedName cfg ++ "] " ++ perAppLogMsg ex)
        :: perAppEvents req rest
    else perAppEvents req rest

/-- The mutation sequence of `executeBackupJob`: a failed preflight
finishes at once with no results; otherwise the app loop runs and the
job finishes with one result per targeted app and the aggregate success
flag. -/
def executeBackupJobEvents (preflightOk : Bool) (req : TriggerReq)
    (apps : List (AppCfgM × AppExec)) : List JobEvent :=
  if preflightOk = false then
    [.finish false [] ["Preflight failed"]]
  else
    perAppEvents req apps
      ++ [.finish ((collectResults req apps).all (fun r => r.ok))
            (collectResults req apps)
            [if (collectResults req apps).all (fun r => r.ok) then
              "Backup job completed successfully"
             else "Backup job completed with failures"]]

/-- `appendJobLog` / `finishJob` as job mutations; `finishJob` stamps the
finishing wall time `t1`. -/
def applyEvent (t1 : Int) (j : BackupJobM) : JobEvent → BackupJobM
  | .logLine line => { j with logs := j.logs ++ [line] }
  | .finish success results logs =>
    { j with running := false, success := some success, results := results,
             endedAt := some t1, logs := j.logs ++ logs }

/-- The completed job: the mutation sequence applied to the fresh job. -/
def runJob (t0 t1 : Int) (preflightOk : Bool) (req : TriggerReq)
    (apps : List (AppCfgM × AppExec)) : BackupJobM :=
  (executeBackupJobEvents preflightOk req apps).foldl (applyEvent t1) (newJob t0)

theorem collectResults_length (req : TriggerReq) (apps : List (AppCfgM × AppExec)) :
    (collectResults req apps).length = (targetedApps req apps).length := by
  induction apps with
  | nil => rfl
  | cons p rest ih =>
    obtain ⟨cfg, ex⟩ := p
    by_cases h : appTargeted req cfg = true
    · simp [collectResults, targetedApps, h, List.filter_cons]
      simpa [targetedApps] using ih
    · simp only [Bool.not_eq_true] at h
      simp [collectResults, targetedApps, h, List.filter_cons]
      simpa [targetedApps] using ih

theorem perAppEvents_no_finish (req : TriggerReq) (apps : List (AppCfgM × AppExec)) :
    ∀ ev ∈ perAppEvents req apps, isFinishEvent ev = false := by
  induction apps with
  | nil => intro ev hev; simp [perAppEvents] at hev
  | cons p rest ih =>
    obtain ⟨cfg, ex⟩ := p
    intro ev hev
    by_cases h : appTargeted req cfg = true
    · simp only [perAppEvents, h, if_true, List.mem_cons] at hev
      rcases hev with rfl | rfl | hev
      · rfl
      · rfl
      · exact ih ev hev
    · simp only [Bool.not_eq_true] at h
      simp only [perAppEvents, h, Bool.false_eq_true, if_false] at hev
      exact ih ev hev

theorem applyEvent_logLine_startedAt (t1 : Int) (j : BackupJobM) (line : String) :
    (applyEvent t1 j (.logLine line)).startedAt = j.startedAt := rfl

theorem foldl_logs_startedAt (t1 : Int) (events : List JobEvent)
    (hlog : ∀ ev ∈ events, isFinishEvent ev = false) :
    ∀ j : BackupJobM,
      (events.foldl (applyEvent t1) j).startedAt = j.startedAt := by
  induction events with
  | nil => intro j; rfl
  | cons ev rest ih =>
    intro j
    cases ev with
    | logLine line =>
      simp only [List.foldl_cons]
      rw [ih (fun e he => hlog e (List.mem_cons_of_mem _ he))]
      rfl
    | finish s r l =>
      have := hlog _ (List.mem_cons_self _ _)
      simp [isFinishEvent] at this

/-! ### Claim C9 -/

/-- **C9, counterexample**: a job whose preflight fails completes
(`running = false`) with an empty result list although one app was
targeted — "exactly one entry per targeted app" fails for completed
jobs on the preflight-failure path. -/
theorem C9_job_results_counterexample :
    (runJob 0 1 false ⟨"", true⟩ [(⟨"radarr", "radarr"⟩, ⟨true, true, .ok ()⟩)]).running
        = false
    ∧ (runJob 0 1 false ⟨"", true⟩
        [(⟨"radarr", "radarr"⟩, ⟨true, true, .ok ()⟩)]).results.length = 0
    ∧ (targetedApps ⟨"", true⟩ [(⟨"radarr", "radarr"⟩, ⟨true, true, .ok ()⟩)]).length
        = 1 := by
  decide

/-- **C9 (amended)**: every completed job has `running = false`, its
success flag set, `endedAt = t1 ≥ startedAt = t0`; when the preflight
passes the results hold exactly one entry per targeted app (on preflight
failure the job completes with `success = false` and no results); and
the mutation sequence ends with its single `finish` — in the sequential
job model nothing changes and no line is appended after completion. -/
theorem C9_job_completion (t0 t1 : Int) (preflightOk : Bool) (req : TriggerReq)
    (apps : List (AppCfgM × AppExec)) (hmono : t0 ≤ t1) :
    (runJob t0 t1 preflightOk req apps).running = false
    ∧ ((runJob t0 t1 preflightOk req apps).success).isSome = true
    ∧ (runJob t0 t1 preflightOk req apps).endedAt = some t1
    ∧ (runJob t0 t1 preflightOk req apps).startedAt = t0
    ∧ (runJob t0 t1 preflightOk req apps).startedAt ≤ t1
    ∧ (preflightOk = true →
        (runJob t0 t1 preflightOk req apps).results.length
          = (targetedApps req apps).length)
    ∧ (preflightOk = false →
        (runJob t0 t1 preflightOk req apps).results = []
          ∧ (runJob t0 t1 preflightOk req apps).success = some false)
    ∧ (∃ pre s r l,
        executeBackupJobEvents preflightOk req apps = pre ++ [.finish s r l]
        ∧ ∀ ev ∈ pre, isFinishEvent ev = false) := by
  cases preflightOk with
  | false =>
    refine ⟨rfl, rfl, rfl, rfl, by simpa using hmono, by simp, fun _ => ⟨rfl, rfl⟩,
      [], false, [], ["Preflight failed"], rfl, by simp⟩
  | true =>
    have hsplit : runJob t0 t1 true req apps
        = applyEvent t1 ((perAppEvents req apps).foldl (applyEvent t1) (newJob t0))
            (.finish ((collectResults req apps).all (fun r => r.ok))
              (collectResults req apps)
              [if (collectResults req apps).all (fun r => r.ok) then
                "Backup job completed successfully"
               else "Backup job completed with failures"]) := by
      rw [runJob, executeBackupJobEvents]
      simp [List.foldl_append]
    have hstart : ((perAppEvents req apps).foldl (applyEvent t1)
        (newJob t0)).startedAt = t0 :=
      foldl_logs_startedAt t1 (perAppEvents req apps)
        (perAppEvents_no_finish req apps) (newJob t0)
    refine ⟨?_, ?_, ?_, ?_, ?_, ?_, by simp, ?_⟩
    · rw [hsplit]; rfl
    · rw [hsplit]; rfl
    · rw [hsplit]; rfl
    · rw [hsplit]
      simpa [applyEvent] using hstart
    · rw [hsplit]
      simp only [applyEvent]
      rw [hstart]
      exact hmono
    · intro _
      rw [hsplit]
      simpa [applyEvent] using collectResults_length req apps
    · refine ⟨perAppEvents req apps,
        (collectResults req apps).all (fun r => r.ok),
        collectResults req apps,
        [if (collectResults req apps).all (fun r => r.ok) then
          "Backup job completed successfully"
         else "Backup job completed with failures"],
        ?_, perAppEvents_no_finish req apps⟩
      rw [executeBackupJobEvents]
      simp

/-- Witness for the amended C9: one targeted app, successful run. -/
theorem C9_job_completion_witness :
    (runJob 0 1 true ⟨"", true⟩ [(⟨"radarr", "radarr"⟩, ⟨true, true, .ok ()⟩)]).running
        = false
    ∧ (runJob 0 1 true ⟨"", true⟩
        [(⟨"radarr", "radarr"⟩, ⟨true, true, .ok ()⟩)]).results.length = 1 := by
  have h := C9_job_completion 0 1 true ⟨"", true⟩
    [(⟨"radarr", "radarr"⟩, ⟨true, true, .ok ()⟩)] (by decide)
  exact ⟨h.1, by rw [h.2.2.2.2.2.1 rfl]; decide⟩

/-! ## Radarr app client: database-type handling (src/radarr/client.go)

`Backup`'s post-download phase is modelled over its observable
collaborator outcomes: the `/system/status` database-type query, the
`config.xml` parse, the Postgres dumping subprocess and the ZIP
enhancement.  The returned pair is (warnings logged, final result). -/

structure PgConfigM where
  Host : String
  Port : String
  User : String
  Password : String
  MainDB : String
  LogDB : String
  deriving Repr, DecidableEq

/-- The per-field override merge of `Backup` (an override field wins
when non-empty). -/
def mergeOverride (cfg ov : PgConfigM) : PgConfigM :=
  ⟨if ov.Host ≠ "" then ov.Host else cfg.Host,
   if ov.Port ≠ "" then ov.Port else cfg.Port,
   if ov.User ≠ "" then ov.User else cfg.User,
   if ov.Password ≠ "" then ov.Password else cfg.Password,
   if ov.MainDB ≠ "" then ov.MainDB else cfg.MainDB,
   if ov.LogDB ≠ "" then ov.LogDB else cfg.LogDB⟩

/-- `getDatabaseType`: propagate the status-query error; an absent
`databaseType` defaults to `"sqLite"`. -/
def getDatabaseType (statusRes : Except String (Option String)) :
    Except String String :=
  match statusRes with
  | .error e => .error e
  | .ok none => .ok "sqLite"
  | .ok (some t) => .ok t

/-- The enrichment phase of `RadarrClient.Backup` (lines 108–180): on a
database-type error, log a warning and treat the database as
single-file; only `"postgreSQL"` triggers the parse → override → dump →
enhance pipeline. -/
def radarrBackupFinalize (backupData : List Nat)
    (dbTypeRes : Except String String)
    (pgOverride : Option PgConfigM)
    (parseRes : Except String (Option PgConfigM))
    (dumpFn : PgConfigM → Except String (List (String × List Nat)))
    (enhanceFn : List Nat → List (String × List Nat) → Except String (List Nat)) :
    List String × Except String (List Nat) :=
  let dbType : String := match dbTypeRes with | .ok t => t | .error _ => ""
  let warnings : List String := match dbTypeRes with
    | .ok _ => []
    | .error e => ["Warning: could not determine database type: " ++ e]
  if dbType == "postgreSQL" then
    match parseRes with
    | .error e => (warnings, .error ("failed to parse postgres config: " ++ e))
    | .ok parsed =>
      match (match parsed, pgOverride with
             | some cfg, some ov => some (mergeOverride cfg ov)
             | some cfg, none => some cfg
             | none, some ov => some ov
             | none, none => none) with
      | some cfg =>
        (match dumpFn cfg with
         | .error e => (warnings, .error ("failed to dump postgres databases: " ++ e))
         | .ok dumps =>
           (match enhanceFn backupData dumps with
            | .error e =>
              (warnings, .error ("failed to create enhanced backup: " ++ e))
            | .ok enhanced => (warnings, .ok enhanced)))
      | none => (warnings, .ok backupData)
  else (warnings, .ok backupData)

/-! ### Claim C10 -/

/-- **C10**: a failing database-type query does not fail the backup —
`getDatabaseType` surfaces the error, `Backup` logs it as a warning,
treats the database as single-file, skips the Postgres enrichment and
returns the original artifact with a nil error. -/
theorem C10_dbtype_error_nonfatal (backupData : List Nat) (e : String)
    (pgOverride : Option PgConfigM) (parseRes : Except String (Option PgConfigM))
    (dumpFn : PgConfigM → Except String (List (String × List Nat)))
    (enhanceFn : List Nat → List (String × List Nat) → Except String (List Nat)) :
    getDatabaseType (.error e) = .error e
    ∧ radarrBackupFinalize backupData (.error e) pgOverride parseRes dumpFn enhanceFn
        = (["Warning: could not determine database type: " ++ e], .ok backupData)
    ∧ (∀ statusRes t, getDatabaseType statusRes = .ok t → t ≠ "postgreSQL" →
        radarrBackupFinalize backupData (.ok t) pgOverride parseRes dumpFn enhanceFn
          = ([], .ok backupData)) := by
  refine ⟨rfl, ?_, ?_⟩
  · simp [radarrBackupFinalize]
  · intro statusRes t _ hne
    simp [radarrBackupFinalize, hne]

/-- Witness for C10 at a concrete failing query. -/
theorem C10_dbtype_error_nonfatal_witness :
    radarrBackupFinalize [9, 9] (.error "API error: 500 - boom") none (.ok none)
        (fun _ => .error "unused") (fun _ _ => .error "unused")
      = (["Warning: could not determine database type: API error: 500 - boom"],
         .ok [9, 9]) := by
  have h := (C10_dbtype_error_nonfatal [9, 9] "API error: 500 - boom" none (.ok none)
    (fun _ => .error "unused") (fun _ _ => .error "unused")).2.1
  exact h

end Backuparr
